import Mathlib

/-!
Verification of the addresses component (src/components/addresses): a shallow
embedding of `db.rs` and `update_plan.rs` over an explicit two-table database
state. SQL statements are translated one by one into list transformations;
every public mutating operation is wrapped in a transaction combinator that
restores the starting state on error, mirroring rusqlite transaction rollback.
Cooperative interruption (`SqlInterruptScope::err_if_interrupted`) is modelled
by an oracle `List Bool` consumed one entry per check; an empty oracle means
the scope is never interrupted.

The files `address.rs`, `schema.rs` and `error.rs` of the component are not
part of the sources; the definitions taken from them are modelled from the
specification and marked as such in their doc comments.
-/

namespace Addresses

/-- Modelled from the spec: `error.rs` is missing from the sources; these are
the error kinds of spec §7, plus explicit variants for the two panics the code
under `src/` can reach (`Vec` indexing in `fetch_address_data` via the view
setters, and `Option::unwrap` in `get_last_sync`). -/
inductive Err where
  | invalidRecord
  | duplicateGuid (g : String)
  | noSuchRecord (g : String)
  | nonEmptyTable
  | interrupted
  | panicIndexOutOfBounds
  | panicSlotTwice (g : String)
  | panicNoneUnwrap
deriving DecidableEq, Repr

/-- Modelled from the spec: the record entity of `address.rs` (missing from the
sources), with the shared columns listed in spec §6: identity, origin,
auth-scope fields, credential fields and usage counters. Timestamps are
integer milliseconds. -/
structure Address where
  guid : String
  hostname : String
  httpRealm : Option String
  formSubmitURL : Option String
  usernameField : String
  passwordField : String
  username : String
  password : String
  timesUsed : Int
  timeCreated : Int
  timeLastUsed : Int
  timePasswordChanged : Int
deriving DecidableEq, Repr

/-- Sync status of a Local row. `address.rs` is missing from the sources, but
the numeric values are pinned down by the SQL in `db.rs`: `update` runs
`sync_status = max(sync_status, Changed)` under the comment "leave New records
as they are, otherwise update them to changed", which forces
Synced < Changed < New, and the clone-from-mirror SQL inserts the literal
`0 AS sync_status`. Hence Synced = 0, Changed = 1, New = 2. -/
inductive SyncStatus where
  | synced
  | changed
  | new
deriving DecidableEq, Repr

def SyncStatus.toNat : SyncStatus → Nat
  | .synced => 0
  | .changed => 1
  | .new => 2

def statusOfNat : Nat → SyncStatus
  | 0 => .synced
  | 1 => .changed
  | _ => .new

/-- A row of the `addressesL` table: the record plus the Local-only columns
(`local_modified`, nullable in the schema, `is_deleted`, `sync_status`). -/
structure LocalRow where
  address : Address
  localModified : Option Int
  isDeleted : Bool
  syncStatus : SyncStatus
deriving DecidableEq, Repr

/-- A row of the `addressesM` table: the record plus the Mirror-only columns
(`server_modified`, `is_overridden`). -/
structure MirrorRow where
  address : Address
  serverModified : Int
  isOverridden : Bool
deriving DecidableEq, Repr

/-- The `addressesSyncMeta` key-value table, restricted to the four keys the
code uses (spec §6): last-sync timestamp, global/collection sync ids and the
opaque global state blob. An absent key is `none`. -/
structure Meta where
  lastSync : Option Int
  globalSyncId : Option String
  collSyncId : Option String
  globalState : Option String
deriving DecidableEq, Repr

/-- The whole database state: Local table, Mirror table, metadata table. -/
structure DbState where
  localRows : List LocalRow
  mirrorRows : List MirrorRow
  meta : Meta
deriving DecidableEq, Repr

def emptyMeta : Meta := ⟨none, none, none, none⟩

def emptyDb : DbState := ⟨[], [], emptyMeta⟩

/-- First Local row with the given guid (the guid is the table's primary key,
spec invariant 2, so well-formed states have at most one). -/
def findLocal (s : DbState) (g : String) : Option LocalRow :=
  s.localRows.find? (fun r => r.address.guid == g)

/-- First Mirror row with the given guid. -/
def findMirror (s : DbState) (g : String) : Option MirrorRow :=
  s.mirrorRows.find? (fun m => m.address.guid == g)

/-- Well-formedness corresponding to the primary keys of the two tables
(spec invariant 2): at most one Local row and one Mirror row per guid. -/
def WF (s : DbState) : Prop :=
  (s.localRows.map (fun r => r.address.guid)).Nodup ∧
  (s.mirrorRows.map (fun m => m.address.guid)).Nodup

/-- Spec invariant 3's committed form: no guid has both a Local row and a
not-overridden Mirror row. -/
def Inv (s : DbState) : Prop :=
  ∀ r ∈ s.localRows, ∀ m ∈ s.mirrorRows,
    m.address.guid = r.address.guid → m.isOverridden = true

/-- One cooperative interruption check: consumes the head of the oracle and
fails with `Interrupted` when it is `true`. An exhausted oracle never
interrupts. -/
def errIfInterrupted : List Bool → Except Err (List Bool)
  | [] => .ok []
  | b :: rest => if b then .error .interrupted else .ok rest

/-- The chunking of `sql_support::each_chunk`: slices of at most `n+1`
elements (the code uses the SQLite variable limit 999). -/
def chunksOf : Nat → List α → List (List α)
  | _, [] => []
  | 0, a :: l => [a :: l]
  | n + 1, a :: l => (a :: l.take n) :: chunksOf (n + 1) (l.drop n)
termination_by _ l => l.length
decreasing_by
  simp only [List.length_cons, List.length_drop]
  omega

/-- Modelled from the spec: `check_valid` lives in the missing `address.rs`;
spec §4.1 says `add`/`update` validate required fields (origin and credential),
failing with InvalidRecord before any mutation. -/
def checkValid (a : Address) : Except Err Unit :=
  if a.hostname.isEmpty || a.password.isEmpty then .error .invalidRecord else .ok ()

/-- The `UPDATE addressesM SET is_overridden = 1 WHERE guid = :guid`
statement of `mark_mirror_overridden`. -/
def markMirrorOverridden (g : String) (s : DbState) : DbState :=
  { s with mirrorRows := s.mirrorRows.map (fun m =>
      if m.address.guid == g then { m with isOverridden := true } else m) }

/-- A Local row cloned from a Mirror row by `CLONE_SINGLE_MIRROR_SQL` /
`CLONE_ENTIRE_MIRROR_SQL`: common columns copied, `NULL AS local_modified`,
`0 AS is_deleted`, `0 AS sync_status` (that is, Synced). -/
def cloneOf (m : MirrorRow) : LocalRow :=
  { address := m.address, localModified := none, isDeleted := false, syncStatus := .synced }

/-- The `INSERT OR IGNORE ... SELECT ... FROM addressesM WHERE guid = :guid`
of `clone_mirror_to_overlay`; returns the state and the number of rows
changed (0 when there is no Mirror row, or when a Local row already exists so
the insert is ignored). -/
def cloneMirrorToOverlay (g : String) (s : DbState) : DbState × Nat :=
  match findMirror s g with
  | none => (s, 0)
  | some m =>
    if (findLocal s g).isSome then (s, 0)
    else ({ s with localRows := s.localRows ++ [cloneOf m] }, 1)

/-- `ensure_local_overlay_exists`: succeed if any Local row (deleted or not)
exists; otherwise clone from the Mirror (any `is_overridden` value), throwing
NoSuchRecord when the clone changes no rows. -/
def ensureLocalOverlayExists (g : String) (s : DbState) : Except Err DbState :=
  if (findLocal s g).isSome then .ok s
  else
    let c := cloneMirrorToOverlay g s
    if c.2 == 0 then .error (.noSuchRecord g) else .ok c.1

/-- The non-query part of `touch` inside its transaction: ensure an overlay,
mark the Mirror overridden, then bump `timeLastUsed`, `timesUsed` and
`local_modified` on the non-deleted Local row. -/
def touchBody (now : Int) (g : String) (s : DbState) : Except Err DbState :=
  match ensureLocalOverlayExists g s with
  | .error e => .error e
  | .ok s1 =>
    let s2 := markMirrorOverridden g s1
    .ok { s2 with localRows := s2.localRows.map (fun r =>
        if r.address.guid == g && !r.isDeleted then
          { r with
            localModified := some now,
            address := { r.address with
              timeLastUsed := now,
              timesUsed := r.address.timesUsed + 1 } }
        else r) }

/-- `AddressesDb::touch`, transaction committed on success and rolled back on
error. -/
def touch (now : Int) (g : String) (s : DbState) : Except Err Unit × DbState :=
  match touchBody now g s with
  | .ok s1 => (.ok (), s1)
  | .error e => (.error e, s)

/-- `AddressesDb::add`. Validation happens before the transaction; an empty
guid is replaced by a freshly generated one (`freshGuid` stands for
`Guid::random()`); creation/usage metadata is stamped from `now`; the
`INSERT OR IGNORE` into `addressesL` changes zero rows exactly when a Local
row with the guid already exists, which is surfaced as DuplicateGuid. -/
def add (now : Int) (freshGuid : String) (a0 : Address) (s : DbState) :
    Except Err Address × DbState :=
  match checkValid a0 with
  | .error e => (.error e, s)
  | .ok _ =>
    let g := if a0.guid.isEmpty then freshGuid else a0.guid
    let a := { a0 with
      guid := g,
      timeCreated := now,
      timePasswordChanged := now,
      timeLastUsed := now,
      timesUsed := 1 }
    if (findLocal s g).isSome then
      (.error (.duplicateGuid g), s)
    else
      (.ok a, { s with localRows := s.localRows ++
          [{ address := a, localModified := some now, isDeleted := false,
             syncStatus := .new }] })

/-- The `UPDATE addressesL SET ...` statement of `update`: refresh the mutable
fields, bump `timesUsed`, keep `timePasswordChanged` unless the password
differs, and raise `sync_status` to `max(sync_status, Changed)`. -/
def updateStmt (now : Int) (a : Address) (s : DbState) : DbState :=
  { s with localRows := s.localRows.map (fun r =>
      if r.address.guid == a.guid then
        { r with
          localModified := some now,
          syncStatus := statusOfNat (max r.syncStatus.toNat SyncStatus.changed.toNat),
          address := { r.address with
            hostname := a.hostname,
            username := a.username,
            password := a.password,
            httpRealm := a.httpRealm,
            formSubmitURL := a.formSubmitURL,
            usernameField := a.usernameField,
            passwordField := a.passwordField,
            timesUsed := r.address.timesUsed + 1,
            timeLastUsed := now,
            timePasswordChanged :=
              if r.address.password == a.password then r.address.timePasswordChanged
              else now } }
      else r) }

/-- The body of `AddressesDb::update` inside its transaction. -/
def updateBody (now : Int) (a : Address) (s : DbState) : Except Err DbState :=
  match ensureLocalOverlayExists a.guid s with
  | .error e => .error e
  | .ok s1 => .ok (updateStmt now a (markMirrorOverridden a.guid s1))

/-- `AddressesDb::update`: validate, then one transaction around overlay
creation, mirror marking and the field update. -/
def update (now : Int) (a : Address) (s : DbState) : Except Err Unit × DbState :=
  match checkValid a with
  | .error e => (.error e, s)
  | .ok _ =>
    match updateBody now a s with
    | .ok s1 => (.ok (), s1)
    | .error e => (.error e, s)

/-- The `SELECT EXISTS(...)` of `AddressesDb::exists`: a non-deleted Local row
or a non-overridden Mirror row. -/
def existsRecord (s : DbState) (g : String) : Bool :=
  s.localRows.any (fun r => r.address.guid == g && !r.isDeleted) ||
    s.mirrorRows.any (fun m => m.address.guid == g && !m.isOverridden)

/-- The tombstone Local row synthesized from a Mirror row by `delete` and
`wipe`: listed columns from the SQL; the columns the INSERT omits take their
schema defaults (schema.rs is absent; empty/zero defaults, modelled from the
spec's tombstone description of cleared sensitive fields). -/
def tombstoneOf (now : Int) (m : MirrorRow) : LocalRow :=
  { address := { guid := m.address.guid, hostname := "", httpRealm := none,
                 formSubmitURL := none, usernameField := "", passwordField := "",
                 username := "", password := "", timesUsed := 0,
                 timeCreated := m.address.timeCreated, timeLastUsed := 0,
                 timePasswordChanged := now },
    localModified := some now, isDeleted := true, syncStatus := .changed }

/-- `AddressesDb::delete`: read existence, hard-delete never-synced (New)
rows, soft-delete the rest, mark the Mirror overridden, and synthesize a
tombstone from the Mirror when no Local row remains. No error path exists in
the body, so the transaction always commits. -/
def delete (now : Int) (g : String) (s : DbState) : Except Err Bool × DbState :=
  let ex := existsRecord s g
  let s1 := { s with localRows := s.localRows.filter (fun r =>
      !(r.address.guid == g && r.syncStatus == SyncStatus.new)) }
  let s2 := { s1 with localRows := s1.localRows.map (fun r =>
      if r.address.guid == g then
        { r with
          localModified := some now, syncStatus := .changed, isDeleted := true,
          address := { r.address with password := "", hostname := "", username := "" } }
      else r) }
  let s3 := markMirrorOverridden g s2
  let s4 :=
    match findMirror s3 g with
    | none => s3
    | some m =>
      if (findLocal s3 g).isSome then s3
      else { s3 with localRows := s3.localRows ++ [tombstoneOf now m] }
  (.ok ex, s4)

/-- `AddressesDb::import_multiple` (the Rust name starts with a reserved word
so the Lean name is camel-cased). The emptiness precondition is checked before
the transaction; invalid records are skipped and counted; a guid failing the
transport constraint (`validGuid`, the external `Guid::is_valid_for_sync_server`)
is regenerated via `fresh`; a conflicting `INSERT OR IGNORE` returns Ok(0)
rows and is not counted as a failure. -/
def importMultiple (now : Int) (validGuid : String → Bool) (fresh : Nat → String)
    (addrs : List Address) (s : DbState) : Except Err Int × DbState :=
  if s.localRows.length + s.mirrorRows.length > 0 then
    (.error .nonEmptyTable, s)
  else
    let final := addrs.enum.foldl (fun (acc : DbState × Int) ia =>
      match checkValid ia.2 with
      | .error _ => (acc.1, acc.2 + 1)
      | .ok _ =>
        let g := if validGuid ia.2.guid then ia.2.guid else fresh ia.1
        if (findLocal acc.1 g).isSome then acc
        else
          ({ acc.1 with localRows := acc.1.localRows ++
              [{ address := { ia.2 with guid := g }, localModified := some now,
                 isDeleted := false, syncStatus := .new }] }, acc.2)) (s, 0)
    (.ok final.2, final.1)

/-- `set_last_sync`: `REPLACE INTO addressesSyncMeta` for the last-sync key. -/
def setLastSync (ts : Int) (s : DbState) : DbState :=
  { s with meta := { s.meta with lastSync := some ts } }

/-- The sync association argument of `reset` (`StoreSyncAssociation`). -/
inductive StoreSyncAssociation where
  | disconnected
  | connected (globalId : String) (collId : String)
deriving DecidableEq, Repr

/-- `AddressesDb::reset`: clone the entire Mirror into Local (ignored when a
Local row exists), clear the Mirror, set every Local row's status to New,
reset last-sync to 0, store or clear the association ids, and drop the cached
global state. The body has no error path, so the transaction commits. -/
def reset (assoc : StoreSyncAssociation) (s : DbState) : Except Err Unit × DbState :=
  let s1 := s.mirrorRows.foldl (fun st m =>
      if (findLocal st m.address.guid).isSome then st
      else { st with localRows := st.localRows ++ [cloneOf m] }) s
  let s2 := { s1 with mirrorRows := [] }
  let s3 := { s2 with localRows := s2.localRows.map (fun r => { r with syncStatus := .new }) }
  let s4 := setLastSync 0 s3
  let s5 :=
    match assoc with
    | .disconnected =>
      { s4 with meta := { s4.meta with globalSyncId := none, collSyncId := none } }
    | .connected gid cid =>
      { s4 with meta := { s4.meta with globalSyncId := some gid, collSyncId := some cid } }
  (.ok (), { s5 with meta := { s5.meta with globalState := none } })

/-- The body of `AddressesDb::wipe` inside its transaction, with its four
interruption checks: hard-delete New rows, soft-delete the remaining live
rows, mark every Mirror row overridden, and synthesize tombstones for
Mirror-only guids. -/
def wipeBody (now : Int) (scope : List Bool) (s : DbState) : Except Err DbState := do
  let s1 : DbState := { s with localRows := s.localRows.filter (fun r =>
      !(r.syncStatus == SyncStatus.new)) }
  let sc1 ← errIfInterrupted scope
  let s2 : DbState := { s1 with localRows := s1.localRows.map (fun r =>
      if !r.isDeleted then
        { r with
          localModified := some now, syncStatus := .changed, isDeleted := true,
          address := { r.address with password := "", hostname := "", username := "" } }
      else r) }
  let sc2 ← errIfInterrupted sc1
  let s3 : DbState := { s2 with mirrorRows := s2.mirrorRows.map (fun m => { m with isOverridden := true }) }
  let sc3 ← errIfInterrupted sc2
  let s4 : DbState := s3.mirrorRows.foldl (fun st m =>
      if (findLocal st m.address.guid).isSome then st
      else { st with localRows := st.localRows ++ [tombstoneOf now m] }) s3
  let _ ← errIfInterrupted sc3
  pure s4

/-- `AddressesDb::wipe`: one transaction, rolled back on interruption. -/
def wipe (now : Int) (scope : List Bool) (s : DbState) : Except Err Unit × DbState :=
  match wipeBody now scope s with
  | .ok s1 => (.ok (), s1)
  | .error e => (.error e, s)

/-- `AddressesDb::wipe_local`: unconditional hard delete of all three tables
inside one transaction. -/
def wipeLocal (_s : DbState) : Except Err Unit × DbState :=
  (.ok (), ⟨[], [], emptyMeta⟩)

/-- One chunk of `mark_as_synchronized`: delete the Mirror rows of the chunk,
re-insert them from the non-deleted Local rows with `is_overridden = 0` and
`server_modified = ts`, delete the Local rows, checking interruption after
each statement. -/
def masChunk (ts : Int) (chunk : List String) (s : DbState) (sc : List Bool) :
    Except Err (DbState × List Bool) := do
  let s1 : DbState := { s with mirrorRows := s.mirrorRows.filter (fun m =>
      !(chunk.contains m.address.guid)) }
  let sc1 ← errIfInterrupted sc
  let s2 : DbState := (s1.localRows.filter (fun r =>
      !r.isDeleted && chunk.contains r.address.guid)).foldl (fun st r =>
        if (findMirror st r.address.guid).isSome then st
        else { st with mirrorRows := st.mirrorRows ++
            [{ address := r.address, serverModified := ts, isOverridden := false }] }) s1
  let sc2 ← errIfInterrupted sc1
  let s3 : DbState := { s2 with localRows := s2.localRows.filter (fun r =>
      !(chunk.contains r.address.guid)) }
  let sc3 ← errIfInterrupted sc2
  pure (s3, sc3)

/-- The body of `mark_as_synchronized`: fold the guid chunks, then persist
last-sync, all inside one transaction. -/
def masBody (guids : List String) (ts : Int) (scope : List Bool) (s : DbState) :
    Except Err DbState := do
  let res ← (chunksOf 999 guids).foldlM
      (fun (acc : DbState × List Bool) ch => masChunk ts ch acc.1 acc.2) (s, scope)
  pure (setLastSync ts res.1)

/-- `AddressesDb::mark_as_synchronized` (also `Store::sync_finished`). -/
def markAsSynchronized (guids : List String) (ts : Int) (scope : List Bool)
    (s : DbState) : Except Err Unit × DbState :=
  match masBody guids ts scope s with
  | .ok s1 => (.ok (), s1)
  | .error e => (.error e, s)

/-- `get_meta` for the last-sync key followed by `.unwrap()`: `get_last_sync`
panics when the key is absent and otherwise returns `Ok(Some value)`. -/
def getLastSync (s : DbState) : Except Err (Option Int) :=
  match s.meta.lastSync with
  | some v => .ok (some v)
  | none => .error .panicNoneUnwrap

/-- The `since` computation of `AddressesStore::get_collection_request`:
`get_last_sync()?.unwrap_or_default()`. -/
def getCollectionRequestSince (s : DbState) : Except Err Int :=
  match getLastSync s with
  | .ok o => .ok (o.getD 0)
  | .error e => .error e

/-- Modelled from the spec: the field-level delta of `address.rs` (missing
from the sources), spec §4.3: a delta of (record vs. Mirror baseline) holds,
per field, the changed value or nothing. An `Option (Option String)` field
records a change of a nullable column. -/
structure AddressDelta where
  hostname : Option String
  httpRealm : Option (Option String)
  formSubmitURL : Option (Option String)
  usernameField : Option String
  passwordField : Option String
  username : Option String
  password : Option String
  timesUsed : Option Int
  timeCreated : Option Int
  timeLastUsed : Option Int
  timePasswordChanged : Option Int
deriving DecidableEq, Repr

/-- Modelled from the spec: `Address::delta` of the missing `address.rs`
("compute field-level deltas", spec §4.3): per field, the value of `a` when it
differs from the baseline `b`, else nothing. -/
def Address.delta (a b : Address) : AddressDelta :=
  { hostname := if a.hostname ≠ b.hostname then some a.hostname else none,
    httpRealm := if a.httpRealm ≠ b.httpRealm then some a.httpRealm else none,
    formSubmitURL := if a.formSubmitURL ≠ b.formSubmitURL then some a.formSubmitURL else none,
    usernameField := if a.usernameField ≠ b.usernameField then some a.usernameField else none,
    passwordField := if a.passwordField ≠ b.passwordField then some a.passwordField else none,
    username := if a.username ≠ b.username then some a.username else none,
    password := if a.password ≠ b.password then some a.password else none,
    timesUsed := if a.timesUsed ≠ b.timesUsed then some a.timesUsed else none,
    timeCreated := if a.timeCreated ≠ b.timeCreated then some a.timeCreated else none,
    timeLastUsed := if a.timeLastUsed ≠ b.timeLastUsed then some a.timeLastUsed else none,
    timePasswordChanged :=
      if a.timePasswordChanged ≠ b.timePasswordChanged then some a.timePasswordChanged
      else none }

/-- Per-field combination used by `AddressDelta.merge`: keep this side's
change, fall back to the other side's, and on a two-sided conflict prefer the
other side exactly when `otherWins`. -/
def mergeField (x y : Option α) (otherWins : Bool) : Option α :=
  match x, y with
  | some a, some b => some (if otherWins then b else a)
  | some a, none => some a
  | none, some b => some b
  | none, none => none

/-- Modelled from the spec: `AddressDelta::merge` of the missing `address.rs`
("combine them, biasing conflicting fields toward whichever side is more
recently modified", spec §4.3). `self` is the local delta, `other` the
upstream delta, `otherWins` the bias toward upstream. -/
def AddressDelta.merge (d o : AddressDelta) (otherWins : Bool) : AddressDelta :=
  { hostname := mergeField d.hostname o.hostname otherWins,
    httpRealm := mergeField d.httpRealm o.httpRealm otherWins,
    formSubmitURL := mergeField d.formSubmitURL o.formSubmitURL otherWins,
    usernameField := mergeField d.usernameField o.usernameField otherWins,
    passwordField := mergeField d.passwordField o.passwordField otherWins,
    username := mergeField d.username o.username otherWins,
    password := mergeField d.password o.password otherWins,
    timesUsed := mergeField d.timesUsed o.timesUsed otherWins,
    timeCreated := mergeField d.timeCreated o.timeCreated otherWins,
    timeLastUsed := mergeField d.timeLastUsed o.timeLastUsed otherWins,
    timePasswordChanged := mergeField d.timePasswordChanged o.timePasswordChanged otherWins }

/-- Modelled from the spec: `Address::apply_delta` of the missing
`address.rs` ("apply merged delta atop the Mirror baseline", spec §4.3). -/
def Address.applyDelta (a : Address) (d : AddressDelta) : Address :=
  { a with
    hostname := d.hostname.getD a.hostname,
    httpRealm := d.httpRealm.getD a.httpRealm,
    formSubmitURL := d.formSubmitURL.getD a.formSubmitURL,
    usernameField := d.usernameField.getD a.usernameField,
    passwordField := d.passwordField.getD a.passwordField,
    username := d.username.getD a.username,
    password := d.password.getD a.password,
    timesUsed := d.timesUsed.getD a.timesUsed,
    timeCreated := d.timeCreated.getD a.timeCreated,
    timeLastUsed := d.timeLastUsed.getD a.timeLastUsed,
    timePasswordChanged := d.timePasswordChanged.getD a.timePasswordChanged }

/-- `UpdatePlan` of `update_plan.rs`: five lists of planned mutations. In
`mirrorInserts` the `Bool` is the `is_overridden` flag and the `Int` the
server timestamp in milliseconds. -/
structure UpdatePlan where
  deleteMirror : List String := []
  deleteLocal : List String := []
  localUpdates : List MirrorRow := []
  mirrorInserts : List (Address × Int × Bool) := []
  mirrorUpdates : List (Address × Int) := []
deriving DecidableEq, Repr

/-- The plan property that makes executing a plan preserve `Inv`: every
planned not-overridden mirror insertion is for a guid with no Local row, or
one whose Local rows the plan also deletes. -/
def PlanOK (s : DbState) (p : UpdatePlan) : Prop :=
  ∀ a t, (a, t, false) ∈ p.mirrorInserts →
    ((∀ lr ∈ s.localRows, lr.address.guid ≠ a.guid) ∨ a.guid ∈ p.deleteLocal)

/-- `UpdatePlan::plan_two_way_merge`: last-writer-wins on
`time_password_changed`; the upstream record always goes to the Mirror, with
the overridden flag set exactly when the local side is strictly newer, in
which case the Local row is kept. -/
def planTwoWayMerge (p : UpdatePlan) (lcl : Address) (upstream : Address × Int) :
    UpdatePlan :=
  let isOverride := decide (lcl.timePasswordChanged > upstream.1.timePasswordChanged)
  let p1 := { p with mirrorInserts := p.mirrorInserts ++ [(upstream.1, upstream.2, isOverride)] }
  if !isOverride then { p1 with deleteLocal := p1.deleteLocal ++ [lcl.guid] } else p1

/-- `UpdatePlan::plan_three_way_merge`: ages from `now` (local, with
`SystemTime::duration_since(..).unwrap_or_default()` clamping negative spans
and a NULL `local_modified` reading as 0) and from `server_now` (remote,
clamped likewise); deltas of local and upstream against the shared Mirror
row; the merged delta applied atop the shared row becomes the planned Local
replacement while the raw upstream fast-forwards the Mirror. -/
def planThreeWayMerge (p : UpdatePlan) (now : Int) (serverNow : Int)
    (lcl : LocalRow) (shared : MirrorRow) (upstream : Address)
    (upstreamTime : Int) : UpdatePlan :=
  let localAge := max (now - (lcl.localModified.getD 0)) 0
  let remoteAge := max (serverNow - upstreamTime) 0
  let localDelta := Address.delta lcl.address shared.address
  let upstreamDelta := Address.delta upstream shared.address
  let merged := localDelta.merge upstreamDelta (decide (remoteAge < localAge))
  let p1 := { p with mirrorUpdates := p.mirrorUpdates ++ [(upstream, upstreamTime)] }
  { p1 with localUpdates := p1.localUpdates ++
      [{ address := shared.address.applyDelta merged, serverModified := upstreamTime,
         isOverridden := shared.isOverridden }] }

/-- `UpdatePlan::plan_delete`: inbound deletions remove the guid from both
tables. -/
def planDelete (p : UpdatePlan) (g : String) : UpdatePlan :=
  { p with deleteLocal := p.deleteLocal ++ [g], deleteMirror := p.deleteMirror ++ [g] }

/-- `UpdatePlan::plan_mirror_update`. -/
def planMirrorUpdate (p : UpdatePlan) (a : Address) (ts : Int) : UpdatePlan :=
  { p with mirrorUpdates := p.mirrorUpdates ++ [(a, ts)] }

/-- `UpdatePlan::plan_mirror_insert`. -/
def planMirrorInsert (p : UpdatePlan) (a : Address) (ts : Int) (isOverride : Bool) :
    UpdatePlan :=
  { p with mirrorInserts := p.mirrorInserts ++ [(a, ts, isOverride)] }

/-- The `UPDATE addressesM SET ...` of `perform_mirror_updates`: all record
fields overwritten except the four usage numbers, which keep the stored value
when the incoming one is 0 (`coalesce(nullif(x, 0), x_old)`); `is_overridden`
is untouched. -/
def applyMirrorUpdate (a : Address) (ts : Int) (s : DbState) : DbState :=
  { s with mirrorRows := s.mirrorRows.map (fun m =>
      if m.address.guid == a.guid then
        { m with
          serverModified := ts,
          address := { m.address with
            httpRealm := a.httpRealm,
            formSubmitURL := a.formSubmitURL,
            usernameField := a.usernameField,
            passwordField := a.passwordField,
            password := a.password,
            hostname := a.hostname,
            username := a.username,
            timesUsed := if a.timesUsed == 0 then m.address.timesUsed else a.timesUsed,
            timeLastUsed :=
              if a.timeLastUsed == 0 then m.address.timeLastUsed else a.timeLastUsed,
            timePasswordChanged :=
              if a.timePasswordChanged == 0 then m.address.timePasswordChanged
              else a.timePasswordChanged,
            timeCreated :=
              if a.timeCreated == 0 then m.address.timeCreated else a.timeCreated } }
      else m) }

/-- One row of `perform_mirror_inserts`: `INSERT OR IGNORE INTO addressesM`. -/
def mirrorInsertOrIgnore (a : Address) (ts : Int) (ov : Bool) (s : DbState) : DbState :=
  if (findMirror s a.guid).isSome then s
  else { s with mirrorRows := s.mirrorRows ++
      [{ address := a, serverModified := ts, isOverridden := ov }] }

/-- The `UPDATE addressesL SET ...` of `perform_local_updates`: overwrite the
record fields from the planned replacement, stamp `local_modified` with now,
and force `sync_status` to Changed; `is_deleted` is untouched. -/
def applyLocalUpdate (now : Int) (l : MirrorRow) (s : DbState) : DbState :=
  { s with localRows := s.localRows.map (fun r =>
      if r.address.guid == l.address.guid then
        { r with
          localModified := some now,
          syncStatus := .changed,
          address := { r.address with
            httpRealm := l.address.httpRealm,
            formSubmitURL := l.address.formSubmitURL,
            usernameField := l.address.usernameField,
            passwordField := l.address.passwordField,
            password := l.address.password,
            hostname := l.address.hostname,
            username := l.address.username,
            timeLastUsed := l.address.timeLastUsed,
            timePasswordChanged := l.address.timePasswordChanged,
            timesUsed := l.address.timesUsed } }
      else r) }

/-- `UpdatePlan::perform_deletes`: chunked deletes from Local (interruption
checked per chunk) and from Mirror (no check in that loop). -/
def performDeletes (p : UpdatePlan) (s : DbState) (sc : List Bool) :
    Except Err (DbState × List Bool) := do
  let r1 ← (chunksOf 999 p.deleteLocal).foldlM
      (fun (acc : DbState × List Bool) ch => do
        let s1 : DbState := { acc.1 with localRows := acc.1.localRows.filter (fun r =>
            !(ch.contains r.address.guid)) }
        let sc1 ← errIfInterrupted acc.2
        pure (s1, sc1)) (s, sc)
  let r2 := (chunksOf 999 p.deleteMirror).foldl
      (fun (st : DbState) ch => { st with mirrorRows := st.mirrorRows.filter (fun m =>
          !(ch.contains m.address.guid)) }) r1.1
  pure (r2, r1.2)

/-- `UpdatePlan::perform_mirror_updates`: one update statement per planned
entry, with an interruption check after each. -/
def performMirrorUpdates (p : UpdatePlan) (s : DbState) (sc : List Bool) :
    Except Err (DbState × List Bool) :=
  p.mirrorUpdates.foldlM
    (fun (acc : DbState × List Bool) u => do
      let s1 := applyMirrorUpdate u.1 u.2 acc.1
      let sc1 ← errIfInterrupted acc.2
      pure (s1, sc1)) (s, sc)

/-- `UpdatePlan::perform_mirror_inserts`. -/
def performMirrorInserts (p : UpdatePlan) (s : DbState) (sc : List Bool) :
    Except Err (DbState × List Bool) :=
  p.mirrorInserts.foldlM
    (fun (acc : DbState × List Bool) i => do
      let s1 := mirrorInsertOrIgnore i.1 i.2.1 i.2.2 acc.1
      let sc1 ← errIfInterrupted acc.2
      pure (s1, sc1)) (s, sc)

/-- `UpdatePlan::perform_local_updates`. -/
def performLocalUpdates (now : Int) (p : UpdatePlan) (s : DbState) (sc : List Bool) :
    Except Err (DbState × List Bool) :=
  p.localUpdates.foldlM
    (fun (acc : DbState × List Bool) l => do
      let s1 := applyLocalUpdate now l acc.1
      let sc1 ← errIfInterrupted acc.2
      pure (s1, sc1)) (s, sc)

/-- `UpdatePlan::execute` without the enclosing transaction: deletes, mirror
updates, mirror inserts, local replacements, in that order, with interruption
checked inside each loop. -/
def executePlanBody (now : Int) (p : UpdatePlan) (scope : List Bool) (s : DbState) :
    Except Err (DbState × List Bool) := do
  let r1 ← performDeletes p s scope
  let r2 ← performMirrorUpdates p r1.1 r1.2
  let r3 ← performMirrorInserts p r2.1 r2.2
  performLocalUpdates now p r3.1 r3.2

/-- `AddressesDb::execute_plan`: `UpdatePlan::execute` inside one transaction,
committed on success and rolled back on any error. -/
def executePlan (now : Int) (p : UpdatePlan) (scope : List Bool) (s : DbState) :
    Except Err Unit × DbState :=
  match executePlanBody now p scope s with
  | .ok r => (.ok (), r.1)
  | .error e => (.error e, s)

/-- Modelled from the spec: an inbound sync payload (the `sync15` crate is an
external collaborator, spec §6): an identity plus a body that is a deletion
marker, a record, or garbage that fails to deserialize. -/
inductive PayloadKind where
  | tombstone
  | record (a : Address)
  | garbage
deriving DecidableEq, Repr

/-- An inbound payload: identity and body. -/
structure Payload where
  id : String
  kind : PayloadKind
deriving DecidableEq, Repr

/-- The Reconciliation View (`SyncAddressData` of the missing `address.rs`,
modelled from spec §3): optional inbound record (none meaning a deletion
marker) with its remote timestamp, and the optional Local and Mirror rows. -/
structure SyncAddressData where
  guid : String
  inbound : Option Address × Int
  localRow : Option LocalRow := none
  mirror : Option MirrorRow := none
deriving DecidableEq, Repr

/-- Modelled from the spec: `SyncAddressData::from_payload` of the missing
`address.rs`: a tombstone payload becomes a deletion marker, a record payload
a record view (the payload id is the record identity), and an undeserializable
payload fails (`none`). -/
def fromPayload (p : Payload) (ts : Int) : Option SyncAddressData :=
  match p.kind with
  | .tombstone => some { guid := p.id, inbound := (none, ts) }
  | .record a => some { guid := p.id, inbound := (some { a with guid := p.id }, ts) }
  | .garbage => none

/-- The view a payload parses to before the batched lookup fills its slots
(used to state fetch correctness). -/
def baseView (p : Payload) (ts : Int) : SyncAddressData :=
  { guid := p.id,
    inbound := ((match p.kind with
      | .record a => some { a with guid := p.id }
      | _ => none), ts) }

/-- The first loop of `fetch_address_data`: reject a repeated identity with
DuplicateGuid (checked against all previously seen payloads, parseable or
not), keep the views of the payloads that parse, and count the rest as
telemetry failures. -/
def dedupParse : List (Payload × Int) → List String → List SyncAddressData → Nat →
    Except Err (List SyncAddressData × Nat)
  | [], _, acc, failed => .ok (acc, failed)
  | (p, ts) :: rest, seen, acc, failed =>
    if seen.contains p.id then .error (.duplicateGuid p.id)
    else
      match fromPayload p ts with
      | some v => dedupParse rest (p.id :: seen) (acc ++ [v]) failed
      | none => dedupParse rest (p.id :: seen) acc (failed + 1)

/-- `SyncAddressData::set_mirror` applied at `sync_data[guid_idx]`: a `Vec`
index out of range panics, and filling an already-filled slot panics (the
setter of the missing `address.rs`, modelled from the spec's "each view slot
is filled exactly once"). -/
def setMirrorSlot (views : List SyncAddressData) (i : Nat) (m : MirrorRow) :
    Except Err (List SyncAddressData) :=
  match views.get? i with
  | none => .error .panicIndexOutOfBounds
  | some v =>
    if v.mirror.isSome then .error (.panicSlotTwice v.guid)
    else .ok (views.set i { v with mirror := some m })

/-- `SyncAddressData::set_local` applied at `sync_data[guid_idx]`. -/
def setLocalSlot (views : List SyncAddressData) (i : Nat) (l : LocalRow) :
    Except Err (List SyncAddressData) :=
  match views.get? i with
  | none => .error .panicIndexOutOfBounds
  | some v =>
    if v.localRow.isSome then .error (.panicSlotTwice v.guid)
    else .ok (views.set i { v with localRow := some l })

/-- One chunk of the batched lookup of `fetch_address_data`: the compound
query returns the Mirror matches of the chunk's guids and then the Local
matches, each tagged with the guid's index in the original batch; every row is
written into `sync_data` at that index, with an interruption check per row. -/
def fetchChunk (s : DbState) (chunk : List (Nat × String))
    (views : List SyncAddressData) (sc : List Bool) :
    Except Err (List SyncAddressData × List Bool) := do
  let r1 ← chunk.foldlM (fun (acc : List SyncAddressData × List Bool) ig =>
      match findMirror s ig.2 with
      | none => pure acc
      | some m => do
        let vs ← setMirrorSlot acc.1 ig.1 m
        let sc1 ← errIfInterrupted acc.2
        pure (vs, sc1)) (views, sc)
  chunk.foldlM (fun (acc : List SyncAddressData × List Bool) ig =>
      match findLocal s ig.2 with
      | none => pure acc
      | some l => do
        let vs ← setLocalSlot acc.1 ig.1 l
        let sc1 ← errIfInterrupted acc.2
        pure (vs, sc1)) r1

/-- `AddressesDb::fetch_address_data`: duplicate check and parse, one
interruption check, then the chunked batched lookup keyed by the original
batch indices. Returns the views, the telemetry failure count and the
remaining oracle. -/
def fetchAddressData (records : List (Payload × Int)) (scope : List Bool)
    (s : DbState) : Except Err (List SyncAddressData × Nat × List Bool) := do
  let pf ← dedupParse records [] [] 0
  let sc ← errIfInterrupted scope
  let idx := (records.map (fun r => r.1.id)).enum
  let res ← (chunksOf 999 idx).foldlM
      (fun (acc : List SyncAddressData × List Bool) ch => fetchChunk s ch acc.1 acc.2)
      (pf.1, sc)
  pure (res.1, pf.2, res.2)

/-- The substring test of the SQL `instr(formSubmitURL, :form_submit) > 0`. -/
def listInfixOf (pat : List Char) : List Char → Bool
  | [] => pat.isEmpty
  | a :: t => pat.isPrefixOf (a :: t) || listInfixOf pat t

def strContainsSub (hay pat : String) : Bool :=
  listInfixOf pat.data hay.data

/-- `AddressesDb::find_dupe`: the first Local row agreeing on origin, realm
and username; when the candidate's form-submission URL normalizes to a
host:port (`uhp` stands for the external `util::url_host_port`), an empty
stored URL or one containing that host:port also matches, otherwise the
stored URL must be NULL exactly when the candidate's is. -/
def findDupe (uhp : String → Option String) (s : DbState) (l : Address) :
    Option Address :=
  let fshp := l.formSubmitURL.bind uhp
  (s.localRows.find? (fun r =>
      r.address.hostname == l.hostname &&
      r.address.httpRealm == l.httpRealm &&
      r.address.username == l.username &&
      (match fshp with
       | some hp =>
         (r.address.formSubmitURL == some "") ||
           (match r.address.formSubmitURL with
            | some u => strContainsSub u hp
            | none => false)
       | none => r.address.formSubmitURL == none))).map (fun r => r.address)

/-- One iteration of the `reconcile` loop: inbound deletions are planned
unconditionally; otherwise the presence of the view's Mirror and Local slots
selects three-way merge, mirror fast-forward, two-way merge, or the fuzzy
dupe search followed by fresh mirror insertion. -/
def reconcileStep (uhp : String → Option String) (s : DbState) (now serverNow : Int)
    (p : UpdatePlan) (v : SyncAddressData) : UpdatePlan :=
  match v.inbound.1 with
  | none => planDelete p v.guid
  | some upstream =>
    match v.mirror, v.localRow with
    | some mirror, some l => planThreeWayMerge p now serverNow l mirror upstream v.inbound.2
    | some _, none => planMirrorUpdate p upstream v.inbound.2
    | none, some l => planTwoWayMerge p l.address (upstream, v.inbound.2)
    | none, none =>
      match findDupe uhp s upstream with
      | some d => planTwoWayMerge p d (upstream, v.inbound.2)
      | none => planMirrorInsert p upstream v.inbound.2 false

/-- `AddressesDb::reconcile`: fold the views into an update plan, checking
interruption once per record. The state is only read (for the dupe search). -/
def reconcile (uhp : String → Option String) (s : DbState) (now serverNow : Int) :
    List SyncAddressData → UpdatePlan → List Bool → Except Err (UpdatePlan × List Bool)
  | [], p, sc => .ok (p, sc)
  | v :: rest, p, sc =>
    match errIfInterrupted sc with
    | .error e => .error e
    | .ok sc1 => reconcile uhp s now serverNow rest (reconcileStep uhp s now serverNow p v) sc1

/-- An outgoing change of `fetch_outgoing`: a tombstone payload with sort
index 5000000 for deleted rows, or the record with sort index 1. -/
structure OutgoingItem where
  id : String
  isTombstone : Bool
  record : Option Address
  sortindex : Int
deriving DecidableEq, Repr

/-- `AddressesDb::fetch_outgoing`: every Local row whose status is not
Synced, as tombstone or record payloads, with an interruption check per row. -/
def fetchOutgoing (scope : List Bool) (s : DbState) :
    Except Err (List OutgoingItem × List Bool) :=
  (s.localRows.filter (fun r => !(r.syncStatus == SyncStatus.synced))).foldlM
    (fun (acc : List OutgoingItem × List Bool) r => do
      let sc ← errIfInterrupted acc.2
      let item : OutgoingItem :=
        if r.isDeleted then
          { id := r.address.guid, isTombstone := true, record := none, sortindex := 5000000 }
        else
          { id := r.address.guid, isTombstone := false, record := some r.address,
            sortindex := 1 }
      pure (acc.1 ++ [item], sc)) ([], scope)

/-- `AddressesDb::do_apply_incoming` (`Store::apply_incoming`): fetch the
views, reconcile them into a plan, execute the plan in its own transaction,
then compute the outgoing set. Only the plan execution mutates, and only it
is transactional: an error in the final outgoing pass leaves the executed
plan committed. -/
def doApplyIncoming (uhp : String → Option String) (now : Int)
    (records : List (Payload × Int)) (serverNow : Int) (scope : List Bool)
    (s : DbState) : Except Err (List OutgoingItem) × DbState :=
  match fetchAddressData records scope s with
  | .error e => (.error e, s)
  | .ok (views, _failed, sc1) =>
    match reconcile uhp s now serverNow views {} sc1 with
    | .error e => (.error e, s)
    | .ok (plan, sc2) =>
      match executePlanBody now plan sc2 s with
      | .error e => (.error e, s)
      | .ok (s1, sc3) =>
        match fetchOutgoing sc3 s1 with
        | .error e => (.error e, s1)
        | .ok (out, _) => (.ok out, s1)

/-- The record fields, used to state field-level merge properties. -/
inductive Field where
  | hostname
  | httpRealm
  | formSubmitURL
  | usernameField
  | passwordField
  | username
  | password
  | timesUsed
  | timeCreated
  | timeLastUsed
  | timePasswordChanged
deriving DecidableEq, Repr, Fintype

/-- The value of one record field. -/
inductive FieldVal where
  | str (v : String)
  | ostr (v : Option String)
  | int (v : Int)
deriving DecidableEq, Repr

/-- Field-indexed view of a record. -/
def Address.fieldVal (a : Address) : Field → FieldVal
  | .hostname => .str a.hostname
  | .httpRealm => .ostr a.httpRealm
  | .formSubmitURL => .ostr a.formSubmitURL
  | .usernameField => .str a.usernameField
  | .passwordField => .str a.passwordField
  | .username => .str a.username
  | .password => .str a.password
  | .timesUsed => .int a.timesUsed
  | .timeCreated => .int a.timeCreated
  | .timeLastUsed => .int a.timeLastUsed
  | .timePasswordChanged => .int a.timePasswordChanged

/-- Field-indexed view of a delta. -/
def AddressDelta.fieldSel (d : AddressDelta) : Field → Option FieldVal
  | .hostname => d.hostname.map .str
  | .httpRealm => d.httpRealm.map .ostr
  | .formSubmitURL => d.formSubmitURL.map .ostr
  | .usernameField => d.usernameField.map .str
  | .passwordField => d.passwordField.map .str
  | .username => d.username.map .str
  | .password => d.password.map .str
  | .timesUsed => d.timesUsed.map .int
  | .timeCreated => d.timeCreated.map .int
  | .timeLastUsed => d.timeLastUsed.map .int
  | .timePasswordChanged => d.timePasswordChanged.map .int

/-! Concrete sample data used by witnesses and counterexamples. -/

/-- A sample valid record with a chosen guid and password-changed time. -/
def sampleAddr (g : String) (tpc : Int) : Address :=
  { guid := g, hostname := "https://example.com", httpRealm := none,
    formSubmitURL := some "https://example.com/submit", usernameField := "u",
    passwordField := "p", username := "user", password := "hunter2",
    timesUsed := 0, timeCreated := 0, timeLastUsed := 0, timePasswordChanged := tpc }

/-- The record used by the C8 witness. -/
def c8demo : Address := sampleAddr "g1" 0

/-- A state holding only a tombstone Local row for guid g1 (used against
claim C3). -/
def c3tomb : DbState :=
  { emptyDb with localRows := [⟨sampleAddr "g1" 7, some 1, true, .changed⟩] }

/-- A state holding one live (non-deleted) Local row for guid g1. -/
def c3live : DbState :=
  { emptyDb with localRows := [⟨sampleAddr "g1" 7, some 1, false, .new⟩] }

/-- A state with only a not-overridden Mirror row for guid g1. -/
def c9mir : DbState :=
  { emptyDb with mirrorRows := [⟨sampleAddr "g1" 0, 3, false⟩] }

/-- A state with one live Local row for guid B (the C7 failing input). -/
def c7state : DbState :=
  { emptyDb with localRows := [⟨sampleAddr "B" 0, some 1, false, .new⟩] }

/-- The C7 failing batch: an unparseable payload ahead of a valid record whose
guid has a Local row. -/
def c7batch : List (Payload × Int) :=
  [(⟨"A", .garbage⟩, 10), (⟨"B", .record (sampleAddr "B" 1)⟩, 10)]

/-- The batch of the repository's own `test_bad_record`: one deletion marker,
one unparseable payload, one valid record. -/
def c7okbatch : List (Payload × Int) :=
  [(⟨"d1", .tombstone⟩, 10000), (⟨"d2", .garbage⟩, 10000),
   (⟨"d3", .record (sampleAddr "d3" 1)⟩, 10000)]

/-- The shared Mirror ancestor of the C4 witness. -/
def c4shared : MirrorRow := ⟨sampleAddr "g4" 10, 30, true⟩

/-- The C4 witness Local row: changes only the password relative to the
ancestor. -/
def c4lcl : LocalRow :=
  ⟨{ sampleAddr "g4" 10 with password := "localpw" }, some 20, false, .changed⟩

/-- The C4 witness upstream record: changes only the username. -/
def c4up : Address := { sampleAddr "g4" 10 with username := "remoteuser" }

/-- Correctness of one filled Reconciliation View against the state it was
fetched from: the inbound record carries the view's identity, an empty Local
slot means the state has no Local row for that identity, and a filled Local
slot holds a row with that identity. -/
def ViewP (s : DbState) (v : SyncAddressData) : Prop :=
  (∀ u, v.inbound.1 = some u → u.guid = v.guid) ∧
  (v.localRow = none → findLocal s v.guid = none) ∧
  (∀ l, v.localRow = some l → l.address.guid = v.guid)

/-- The invariant carried through the chunked slot-filling of
`fetch_address_data`: every slot carries its own identity in its inbound
record and Local slot, an empty Local slot is final (no Local row) or still
pending, and every pending index pair addresses a slot with the pair's guid. -/
def pendInv (s : DbState) (pending : List (Nat × String))
    (w : List SyncAddressData) : Prop :=
  ∀ i v, w.get? i = some v →
    (∀ u, v.inbound.1 = some u → u.guid = v.guid) ∧
    (∀ l, v.localRow = some l → l.address.guid = v.guid) ∧
    (v.localRow = none → findLocal s v.guid = none ∨ ∃ g, (i, g) ∈ pending) ∧
    (∀ g, (i, g) ∈ pending → v.guid = g)

/-- The record the C2 counterexample adds twice. -/
def c2a : Address := sampleAddr "gc" 2

/-- A state with one not-overridden Mirror row and no Local rows; it
satisfies the overlay invariant vacuously. -/
def c2mir : DbState := { emptyDb with mirrorRows := [⟨sampleAddr "gw" 0, 50, false⟩] }

/-- The garbage-free single-record batch of the C2 witness. -/
def c2batch : List (Payload × Int) :=
  [(⟨"gn", PayloadKind.record (sampleAddr "gn" 1)⟩, 100)]

/-- `c2a` as stamped by `add` at time `t`. -/
def c2aAt (t : Int) : Address :=
  { c2a with timeCreated := t, timePasswordChanged := t, timeLastUsed := t, timesUsed := 1 }

/-! General helper lemmas. -/

theorem findLocal_guid {s : DbState} {g : String} {l : LocalRow}
    (h : findLocal s g = some l) : l.address.guid = g := by
  have := List.find?_some h
  simpa using this

theorem findLocal_mem {s : DbState} {g : String} {l : LocalRow}
    (h : findLocal s g = some l) : l ∈ s.localRows :=
  List.mem_of_find?_eq_some h

theorem findMirror_guid {s : DbState} {g : String} {m : MirrorRow}
    (h : findMirror s g = some m) : m.address.guid = g := by
  have := List.find?_some h
  simpa using this

theorem findMirror_mem {s : DbState} {g : String} {m : MirrorRow}
    (h : findMirror s g = some m) : m ∈ s.mirrorRows :=
  List.mem_of_find?_eq_some h

theorem findLocal_eq_none {s : DbState} {g : String} :
    findLocal s g = none ↔ ∀ r ∈ s.localRows, r.address.guid ≠ g := by
  unfold findLocal
  rw [List.find?_eq_none]
  constructor
  · intro h r hr
    have := h r hr
    simpa using this
  · intro h r hr
    simpa using h r hr

theorem findMirror_eq_none {s : DbState} {g : String} :
    findMirror s g = none ↔ ∀ m ∈ s.mirrorRows, m.address.guid ≠ g := by
  unfold findMirror
  rw [List.find?_eq_none]
  constructor
  · intro h m hm
    have := h m hm
    simpa using this
  · intro h m hm
    simpa using h m hm

/-! Claim C10. -/

/-- C10: `get_last_sync` never returns `Ok(None)`: a present key yields its
value and an absent key panics on the `unwrap`, so `get_collection_request`
(whose `unwrap_or_default` is therefore unreachable) also panics when the
last-sync metadata row is missing. -/
theorem c10_get_last_sync_panics (s : DbState) :
    (getLastSync s ≠ .ok none) ∧
      (∀ v, s.meta.lastSync = some v → getLastSync s = .ok (some v)) ∧
      (s.meta.lastSync = none →
        getLastSync s = .error .panicNoneUnwrap ∧
          getCollectionRequestSince s = .error .panicNoneUnwrap) := by
  refine ⟨?_, ?_, ?_⟩
  · unfold getLastSync
    cases s.meta.lastSync <;> simp
  · intro v hv
    unfold getLastSync
    rw [hv]
  · intro h
    constructor
    · unfold getLastSync
      rw [h]
    · unfold getCollectionRequestSince getLastSync
      rw [h]

/-- Witness for C10 at a concrete state with the last-sync key absent. -/
theorem c10_get_last_sync_panics_witness :
    getLastSync emptyDb = .error .panicNoneUnwrap ∧
      getCollectionRequestSince emptyDb = .error .panicNoneUnwrap :=
  (c10_get_last_sync_panics emptyDb).2.2 rfl

/-! Claim C1. -/

/-- C1: every public mutating operation (add, update, touch, delete, bulk
import, wipe, reset, mark-as-synchronized, and plan execution) runs in one
transaction committed only on full success: whenever the operation returns an
error (including Interrupted), the database state — Local, Mirror and
metadata — is exactly the starting state. -/
theorem c1_mutations_atomic :
    (∀ now fg a s e, (add now fg a s).1 = .error e → (add now fg a s).2 = s) ∧
    (∀ now a s e, (update now a s).1 = .error e → (update now a s).2 = s) ∧
    (∀ now g s e, (touch now g s).1 = .error e → (touch now g s).2 = s) ∧
    (∀ now g s e, (delete now g s).1 = .error e → (delete now g s).2 = s) ∧
    (∀ now vg fr l s e,
      (importMultiple now vg fr l s).1 = .error e → (importMultiple now vg fr l s).2 = s) ∧
    (∀ now sc s e, (wipe now sc s).1 = .error e → (wipe now sc s).2 = s) ∧
    (∀ assoc s e, (reset assoc s).1 = .error e → (reset assoc s).2 = s) ∧
    (∀ gs ts sc s e,
      (markAsSynchronized gs ts sc s).1 = .error e → (markAsSynchronized gs ts sc s).2 = s) ∧
    (∀ now p sc s e, (executePlan now p sc s).1 = .error e → (executePlan now p sc s).2 = s) := by
  refine ⟨?_, ?_, ?_, ?_, ?_, ?_, ?_, ?_, ?_⟩
  · intro now fg a s e
    unfold add
    cases h : checkValid a
    · simp only [h]
      simp
    · simp only [h]
      split <;> split <;> simp
  · intro now a s e
    unfold update
    cases checkValid a <;> simp
    cases updateBody now a s <;> simp
  · intro now g s e
    unfold touch
    cases touchBody now g s <;> simp
  · intro now g s e
    unfold delete
    simp
  · intro now vg fr l s e
    unfold importMultiple
    split <;> simp
  · intro now sc s e
    unfold wipe
    cases wipeBody now sc s <;> simp
  · intro assoc s e
    unfold reset
    simp
  · intro gs ts sc s e
    unfold markAsSynchronized
    cases masBody gs ts sc s <;> simp
  · intro now p sc s e
    unfold executePlan
    cases executePlanBody now p sc s <;> simp

/-- Witness for C1: `touch` of an unknown guid fails with NoSuchRecord and
leaves the empty state unchanged; `wipe` interrupted after its first
statement fails with Interrupted and leaves its state unchanged. -/
theorem c1_mutations_atomic_witness :
    ((touch 0 "g" emptyDb).1 = .error (.noSuchRecord "g") ∧
      (touch 0 "g" emptyDb).2 = emptyDb) ∧
    ((wipe 7 [true] emptyDb).1 = .error .interrupted ∧
      (wipe 7 [true] emptyDb).2 = emptyDb) := by
  refine ⟨⟨?_, ?_⟩, ⟨?_, ?_⟩⟩
  · rfl
  · exact c1_mutations_atomic.2.2.1 0 "g" emptyDb (.noSuchRecord "g") rfl
  · rfl
  · exact c1_mutations_atomic.2.2.2.2.2.1 7 [true] emptyDb .interrupted rfl

/-! Claim C8. -/

theorem add_dup_core (now : Int) (fg : String) (a : Address) (s : DbState)
    (hv : checkValid a = .ok ()) (hg : a.guid.isEmpty = false)
    (hdup : (findLocal s a.guid).isSome = true) :
    (add now fg a s).1 = .error (.duplicateGuid a.guid) ∧ (add now fg a s).2 = s := by
  unfold add
  rw [hv]
  simp only [hg, Bool.false_eq_true, if_false, hdup, if_true]
  refine ⟨?_, ?_⟩ <;> trivial

theorem add_ok_state (now : Int) (fg : String) (a : Address) (s : DbState)
    (hv : checkValid a = .ok ()) (hg : a.guid.isEmpty = false)
    (hnone : findLocal s a.guid = none) :
    ∃ r : LocalRow, r.address.guid = a.guid ∧
      (add now fg a s).2 = { s with localRows := s.localRows ++ [r] } := by
  unfold add
  rw [hv]
  simp only [hg, Bool.false_eq_true, if_false, hnone, Option.isSome_none]
  exact ⟨_, rfl, rfl⟩

theorem findLocal_append_one {s : DbState} {r : LocalRow} :
    (findLocal { s with localRows := s.localRows ++ [r] } r.address.guid).isSome = true := by
  unfold findLocal
  rw [List.find?_append]
  cases h : s.localRows.find? (fun x => x.address.guid == r.address.guid) <;> simp

/-- C8: `add` fails with DuplicateGuid exactly when the insert would change
zero rows, that is when a Local-table row with the record's explicit guid
already exists, and it leaves the state unchanged; in particular a second
`add` with the same explicit guid after a successful one fails with
DuplicateGuid and changes nothing. -/
theorem c8_add_duplicate_guid (now : Int) (fg : String) (a : Address) (s : DbState)
    (hv : checkValid a = .ok ()) (hg : a.guid.isEmpty = false) :
    ((findLocal s a.guid).isSome = true →
      (add now fg a s).1 = .error (.duplicateGuid a.guid) ∧ (add now fg a s).2 = s) ∧
    (findLocal s a.guid = none →
      ∀ now2 fg2 b, checkValid b = .ok () → b.guid = a.guid →
        (add now2 fg2 b (add now fg a s).2).1 = .error (.duplicateGuid a.guid) ∧
          (add now2 fg2 b (add now fg a s).2).2 = (add now fg a s).2) := by
  constructor
  · exact add_dup_core now fg a s hv hg
  · intro hnone now2 fg2 b hvb hb
    have hgb : b.guid.isEmpty = false := by rw [hb]; exact hg
    obtain ⟨r, hr, hst⟩ := add_ok_state now fg a s hv hg hnone
    have hsome : (findLocal (add now fg a s).2 b.guid).isSome = true := by
      rw [hst, hb, ← hr]
      exact findLocal_append_one
    have h := add_dup_core now2 fg2 b (add now fg a s).2 hvb hgb hsome
    rw [hb] at h
    exact h

/-- Witness for C8: two adds of the same explicit guid on the empty state. -/
theorem c8_add_duplicate_guid_witness :
    (add 200 "f2" (c8demo) ((add 100 "f" c8demo emptyDb).2)).1 =
        .error (.duplicateGuid "g1") ∧
      (add 200 "f2" c8demo ((add 100 "f" c8demo emptyDb).2)).2 =
        (add 100 "f" c8demo emptyDb).2 :=
  (c8_add_duplicate_guid 100 "f" c8demo emptyDb rfl rfl).2 rfl 200 "f2" c8demo rfl rfl

/-! Claim C6. -/

theorem dedupParse_dup_error :
    ∀ (records : List (Payload × Int)) (seen : List String)
      (acc : List SyncAddressData) (n : Nat),
      ((∃ r ∈ records, r.1.id ∈ seen) ∨ ¬ (records.map (fun r => r.1.id)).Nodup) →
      ∃ g, dedupParse records seen acc n = .error (.duplicateGuid g) := by
  intro records
  induction records with
  | nil =>
    intro seen acc n h
    rcases h with ⟨r, hr, -⟩ | h
    · simp at hr
    · simp at h
  | cons pt rest ih =>
    obtain ⟨p, ts⟩ := pt
    intro seen acc n h
    by_cases hc : p.id ∈ seen
    · exact ⟨p.id, by simp [dedupParse, hc]⟩
    · have hrec : (∃ r ∈ rest, r.1.id ∈ (p.id :: seen)) ∨
          ¬ (rest.map (fun r => r.1.id)).Nodup := by
        rcases h with ⟨r, hr, hs⟩ | h
        · rcases List.mem_cons.mp hr with heq | hr2
          · exfalso
            apply hc
            rw [heq] at hs
            exact hs
          · exact Or.inl ⟨r, hr2, List.mem_cons_of_mem _ hs⟩
        · rw [List.map_cons, List.nodup_cons] at h
          by_cases hmem : p.id ∈ rest.map (fun r => r.1.id)
          · obtain ⟨r, hr, hid⟩ := List.mem_map.mp hmem
            refine Or.inl ⟨r, hr, ?_⟩
            rw [hid]
            exact List.mem_cons_self _ _
          · exact Or.inr (fun hn => h ⟨hmem, hn⟩)
      cases hp : fromPayload p ts with
      | some v =>
        obtain ⟨g, hg⟩ := ih (p.id :: seen) (acc ++ [v]) n hrec
        exact ⟨g, by simp [dedupParse, hc, hp, hg]⟩
      | none =>
        obtain ⟨g, hg⟩ := ih (p.id :: seen) acc (n + 1) hrec
        exact ⟨g, by simp [dedupParse, hc, hp, hg]⟩

/-- C6: a batch containing two payloads with the same guid is rejected as a
whole: `apply_incoming` fails with DuplicateGuid and the database state —
Local, Mirror and metadata — is untouched (no views are processed, no plan is
executed). -/
theorem c6_duplicate_batch (uhp : String → Option String) (now serverNow : Int)
    (records : List (Payload × Int)) (scope : List Bool) (s : DbState)
    (hdup : ¬ (records.map (fun r => r.1.id)).Nodup) :
    (∃ g, (doApplyIncoming uhp now records serverNow scope s).1 =
        .error (.duplicateGuid g)) ∧
      (doApplyIncoming uhp now records serverNow scope s).2 = s := by
  obtain ⟨g, hg⟩ := dedupParse_dup_error records [] [] 0 (Or.inr hdup)
  have hf : fetchAddressData records scope s = .error (.duplicateGuid g) := by
    unfold fetchAddressData
    rw [hg]
    rfl
  constructor
  · refine ⟨g, ?_⟩
    unfold doApplyIncoming
    rw [hf]
  · unfold doApplyIncoming
    rw [hf]

/-- Witness for C6: a concrete two-payload batch sharing one guid on the
empty state. -/
theorem c6_duplicate_batch_witness :
    (∃ g, (doApplyIncoming (fun _ => none) 0
        [(⟨"d", .tombstone⟩, 1), (⟨"d", .tombstone⟩, 2)] 5 [] emptyDb).1 =
          .error (.duplicateGuid g)) ∧
      (doApplyIncoming (fun _ => none) 0
        [(⟨"d", .tombstone⟩, 1), (⟨"d", .tombstone⟩, 2)] 5 [] emptyDb).2 = emptyDb :=
  c6_duplicate_batch (fun _ => none) 0 5
    [(⟨"d", .tombstone⟩, 1), (⟨"d", .tombstone⟩, 2)] [] emptyDb (by simp)

/-! Claim C3. -/

theorem filter_mas_singleton :
    ∀ (rows : List LocalRow) (g : String) (l : LocalRow),
      (rows.map (fun r => r.address.guid)).Nodup →
      rows.find? (fun r => r.address.guid == g) = some l →
      rows.filter (fun r => !r.isDeleted && [g].contains r.address.guid) =
        if l.isDeleted then [] else [l] := by
  intro rows
  induction rows with
  | nil => intro g l _ hf; simp at hf
  | cons r t ih =>
    intro g l hnd hf
    rw [List.map_cons, List.nodup_cons] at hnd
    by_cases hg : r.address.guid = g
    · have hfc : (r :: t).find? (fun r => r.address.guid == g) = some r := by
        rw [List.find?_cons_of_pos]
        simp [hg]
      rw [hfc] at hf
      obtain rfl : r = l := by injection hf
      have htail : t.filter (fun r => !r.isDeleted && [g].contains r.address.guid) = [] := by
        rw [List.filter_eq_nil_iff]
        intro x hx
        have hxg : x.address.guid ≠ g := by
          intro hxeq
          exact hnd.1 (by rw [hg, ← hxeq]; exact List.mem_map_of_mem _ hx)
        simp [hxg]
      rw [List.filter_cons, htail]
      by_cases hd : r.isDeleted <;> simp [hd, hg]
    · have hfc : (r :: t).find? (fun r => r.address.guid == g) =
          t.find? (fun r => r.address.guid == g) := by
        rw [List.find?_cons_of_neg]
        simp [hg]
      rw [hfc] at hf
      rw [List.filter_cons]
      have : (!r.isDeleted && [g].contains r.address.guid) = false := by simp [hg]
      rw [this]
      simp only [Bool.false_eq_true, if_false]
      exact ih g l hnd.2 hf

theorem find?_filter_out {α : Type} (key : α → String) (rows : List α) (ch : List String)
    (g : String) (hg : g ∈ ch) :
    (rows.filter (fun r => !(ch.contains (key r)))).find? (fun r => key r == g) = none := by
  rw [List.find?_eq_none]
  intro x hx
  rcases List.mem_filter.mp hx with ⟨-, hcond⟩
  have hnotin : key x ∉ ch := by simpa using hcond
  simp only [beq_iff_eq]
  intro heq
  exact hnotin (heq ▸ hg)

theorem masChunk_nil_scope (ts : Int) (ch : List String) (s : DbState) :
    masChunk ts ch s [] = .ok
      ({ ((({ s with mirrorRows := s.mirrorRows.filter (fun m =>
              !(ch.contains m.address.guid)) } : DbState).localRows.filter (fun r =>
                !r.isDeleted && ch.contains r.address.guid)).foldl (fun st r =>
                  if (findMirror st r.address.guid).isSome then st
                  else { st with mirrorRows := st.mirrorRows ++
                      [{ address := r.address, serverModified := ts, isOverridden := false }] })
                { s with mirrorRows := s.mirrorRows.filter (fun m =>
                    !(ch.contains m.address.guid)) }) with
         localRows := ((({ s with mirrorRows := s.mirrorRows.filter (fun m =>
              !(ch.contains m.address.guid)) } : DbState).localRows.filter (fun r =>
                !r.isDeleted && ch.contains r.address.guid)).foldl (fun st r =>
                  if (findMirror st r.address.guid).isSome then st
                  else { st with mirrorRows := st.mirrorRows ++
                      [{ address := r.address, serverModified := ts, isOverridden := false }] })
                { s with mirrorRows := s.mirrorRows.filter (fun m =>
                    !(ch.contains m.address.guid)) }).localRows.filter (fun r =>
                      !(ch.contains r.address.guid)) }, []) := rfl

/-- C3 (amended): after `mark_as_synchronized([g], t)` with a Local row for g
present: no Local row remains for g and last-sync equals t, always; a
not-overridden Mirror row for g with server-modified = t exists when the
Local row was live, whereas for a tombstone Local row no Mirror row remains
at all (its deletion is final rather than folded into Mirror). -/
theorem c3_mark_as_synchronized_amended (g : String) (ts : Int) (s : DbState)
    (l : LocalRow) (hwf : WF s) (hfind : findLocal s g = some l) :
    (markAsSynchronized [g] ts [] s).1 = .ok () ∧
    findLocal (markAsSynchronized [g] ts [] s).2 g = none ∧
    (markAsSynchronized [g] ts [] s).2.meta.lastSync = some ts ∧
    (if l.isDeleted then findMirror (markAsSynchronized [g] ts [] s).2 g = none
     else findMirror (markAsSynchronized [g] ts [] s).2 g =
       some { address := l.address, serverModified := ts, isOverridden := false }) := by
  have hchunks : chunksOf 999 [g] = [[g]] := by simp [chunksOf]
  unfold markAsSynchronized masBody
  rw [hchunks]
  simp only [List.foldlM, masChunk_nil_scope, bind, Except.bind, pure, Except.pure]
  have hlg : l.address.guid = g := findLocal_guid hfind
  have hFs := filter_mas_singleton s.localRows g l hwf.1 hfind
  refine ⟨trivial, ?_⟩
  by_cases hd : l.isDeleted
  · rw [hFs]
    simp only [hd, if_true, List.foldl_nil]
    dsimp only [setLastSync]
    refine ⟨?_, rfl, ?_⟩
    · exact find?_filter_out (fun r : LocalRow => r.address.guid) _ [g] g (by simp)
    · exact find?_filter_out (fun m : MirrorRow => m.address.guid) _ [g] g (by simp)
  · rw [hFs]
    simp only [hd, Bool.false_eq_true, if_false, List.foldl_cons, List.foldl_nil]
    have hm1 : findMirror
        { localRows := s.localRows,
          mirrorRows := List.filter (fun m => ! [g].contains m.address.guid) s.mirrorRows,
          meta := s.meta } l.address.guid = none := by
      rw [hlg]
      exact find?_filter_out (fun m : MirrorRow => m.address.guid) _ [g] g (by simp)
    rw [hm1]
    simp only [Option.isSome_none, Bool.false_eq_true, if_false]
    dsimp only [setLastSync]
    refine ⟨?_, rfl, ?_⟩
    · exact find?_filter_out (fun r : LocalRow => r.address.guid) _ [g] g (by simp)
    · unfold findMirror
      dsimp only
      rw [List.find?_append]
      rw [show (List.find? (fun m => m.address.guid == g)
          (List.filter (fun m => ! [g].contains m.address.guid) s.mirrorRows)) = none from
        find?_filter_out (fun m : MirrorRow => m.address.guid) _ [g] g (by simp)]
      simp [hlg]

/-- Counterexample to C3 as stated: a tombstone Local row for g1 is a Local
row, yet after a successful `mark_as_synchronized(["g1"], 500)` no Mirror row
for g1 exists at all, contradicting the claimed not-overridden Mirror row with
server-modified 500. -/
theorem c3_counterexample :
    (findLocal c3tomb "g1").isSome = true ∧
    (markAsSynchronized ["g1"] 500 [] c3tomb).1 = .ok () ∧
    findMirror (markAsSynchronized ["g1"] 500 [] c3tomb).2 "g1" = none := by
  have hchunks : chunksOf 999 ["g1"] = [["g1"]] := by simp [chunksOf]
  refine ⟨rfl, ?_, ?_⟩ <;>
    (unfold markAsSynchronized masBody; rw [hchunks]; rfl)

/-- Witness for the amended C3 at a concrete live Local row. -/
theorem c3_mark_as_synchronized_amended_witness :
    WF c3live ∧ findLocal c3live "g1" = some ⟨sampleAddr "g1" 7, some 1, false, .new⟩ ∧
    ((markAsSynchronized ["g1"] 500 [] c3live).1 = .ok () ∧
      findLocal (markAsSynchronized ["g1"] 500 [] c3live).2 "g1" = none ∧
      (markAsSynchronized ["g1"] 500 [] c3live).2.meta.lastSync = some 500 ∧
      (if (⟨sampleAddr "g1" 7, some 1, false, .new⟩ : LocalRow).isDeleted then
        findMirror (markAsSynchronized ["g1"] 500 [] c3live).2 "g1" = none
       else findMirror (markAsSynchronized ["g1"] 500 [] c3live).2 "g1" =
        some { address := sampleAddr "g1" 7, serverModified := 500,
               isOverridden := false })) :=
  ⟨by constructor <;> decide, rfl,
    c3_mark_as_synchronized_amended "g1" 500 c3live _ ⟨by decide, by decide⟩ rfl⟩

/-! Claim C7. -/

/-- C7: on the empty database the three-payload batch of the repository's own
test yields exactly 2 views in original order with failure count 1, but the
claimed index correlation is broken: the batched lookup addresses the filtered
view list with the guid's index in the unfiltered batch, so with an
unparseable payload ahead of a record whose guid has a Local row the lookup
panics (index out of bounds) instead of filling the correct view. -/
theorem c7_fetch_misindex :
    ((fetchAddressData c7okbatch [] emptyDb).map
        (fun r => (r.1.map (fun v => v.guid), r.2.1)) = .ok (["d1", "d3"], 1)) ∧
    fetchAddressData c7batch [] c7state = .error .panicIndexOutOfBounds := by
  constructor
  · have hch : chunksOf 999 ((c7okbatch.map (fun r => r.1.id)).enum) =
        [[(0, "d1"), (1, "d2"), (2, "d3")]] := by
      simp [c7okbatch, chunksOf, List.enum, List.enumFrom]
    simp only [fetchAddressData]
    rw [hch]
    rfl
  · have hch : chunksOf 999 ((c7batch.map (fun r => r.1.id)).enum) =
        [[(0, "A"), (1, "B")]] := by
      simp [c7batch, chunksOf, List.enum, List.enumFrom]
    simp only [fetchAddressData]
    rw [hch]
    rfl

/-! Claim C9. -/

theorem find?_map_pred {α : Type} (f : α → α) (p : α → Bool) (hp : ∀ a, p (f a) = p a) :
    ∀ l : List α, (l.map f).find? p = (l.find? p).map f := by
  intro l
  induction l with
  | nil => rfl
  | cons a t ih =>
    rw [List.map_cons]
    by_cases h : p a = true
    · rw [List.find?_cons_of_pos _ (by rw [hp]; exact h), List.find?_cons_of_pos _ h]
      rfl
    · rw [List.find?_cons_of_neg _ (by rw [hp]; simpa using h),
        List.find?_cons_of_neg _ (by simpa using h)]
      exact ih

theorem map_id_of_mem {α : Type} (l : List α) (f : α → α) (h : ∀ a ∈ l, f a = a) :
    l.map f = l := by
  induction l with
  | nil => rfl
  | cons a t ih =>
    rw [List.map_cons, h a (List.mem_cons_self a t),
      ih (fun x hx => h x (List.mem_cons_of_mem a hx))]

theorem nodup_find?_unique {rows : List LocalRow} {g : String} {l : LocalRow}
    (hnd : (rows.map (fun r => r.address.guid)).Nodup)
    (hf : rows.find? (fun r => r.address.guid == g) = some l) :
    ∀ r ∈ rows, r.address.guid = g → r = l := by
  induction rows with
  | nil => simp at hf
  | cons a t ih =>
    rw [List.map_cons, List.nodup_cons] at hnd
    intro r hr hrg
    by_cases hg : a.address.guid = g
    · rw [List.find?_cons_of_pos _ (by simp [hg])] at hf
      obtain rfl : a = l := by injection hf
      rcases List.mem_cons.mp hr with rfl | hrt
      · rfl
      · exact absurd (by rw [hg, ← hrg]; exact List.mem_map_of_mem _ hrt) hnd.1
    · rw [List.find?_cons_of_neg _ (by simp [hg])] at hf
      rcases List.mem_cons.mp hr with rfl | hrt
      · exact absurd hrg hg
      · exact ih hnd.2 hf r hrt hrg

/-- C9 (amended): `touch` fails with NoSuchRecord iff the guid has no Local
row of any kind (a tombstone counts as present) and no Mirror row of any kind
(an overridden one counts), in which case the state is unchanged; on success
with a live Local row it bumps times-used, last-used and local-modified
without changing the row's sync status; with only a tombstone Local row it
succeeds and leaves the Local table unchanged; with only a Mirror row it
clones an overlay whose sync status is Synced (not New), with bumped usage
fields. -/
theorem c9_touch_amended (now : Int) (g : String) (s : DbState) :
    ((touch now g s).1 = .error (.noSuchRecord g) ↔
      findLocal s g = none ∧ findMirror s g = none) ∧
    (findLocal s g = none → findMirror s g = none → (touch now g s).2 = s) ∧
    (∀ l, WF s → findLocal s g = some l → l.isDeleted = false →
      (touch now g s).1 = .ok () ∧
      findLocal (touch now g s).2 g = some
        { l with
          localModified := some now,
          address := { l.address with
            timeLastUsed := now,
            timesUsed := l.address.timesUsed + 1 } }) ∧
    (∀ l, WF s → findLocal s g = some l → l.isDeleted = true →
      (touch now g s).1 = .ok () ∧ (touch now g s).2.localRows = s.localRows) ∧
    (∀ m, findLocal s g = none → findMirror s g = some m →
      (touch now g s).1 = .ok () ∧
      findLocal (touch now g s).2 g = some
        { address := { m.address with
            timeLastUsed := now,
            timesUsed := m.address.timesUsed + 1 },
          localModified := some now, isDeleted := false, syncStatus := .synced }) := by
  refine ⟨?_, ?_, ?_, ?_, ?_⟩
  · unfold touch touchBody ensureLocalOverlayExists cloneMirrorToOverlay
    cases hl : findLocal s g <;> cases hm : findMirror s g <;> simp [hl, hm]
  · intro hl hm
    unfold touch touchBody ensureLocalOverlayExists cloneMirrorToOverlay
    simp [hl, hm]
  · intro l hwf hl hd
    unfold touch touchBody ensureLocalOverlayExists
    simp only [hl, Option.isSome_some, if_true]
    refine ⟨by trivial, ?_⟩
    simp only [findLocal, markMirrorOverridden]
    rw [find?_map_pred _ _ (by
      intro a
      split <;> rfl)]
    unfold findLocal at hl
    rw [hl]
    have hlg : l.address.guid = g := by
      have := List.find?_some hl
      simpa using this
    simp [hlg, hd]
  · intro l hwf hl hd
    unfold touch touchBody ensureLocalOverlayExists
    simp only [hl, Option.isSome_some, if_true]
    refine ⟨by trivial, ?_⟩
    simp only [markMirrorOverridden]
    have hmapid : ∀ r ∈ s.localRows,
        (if r.address.guid == g && !r.isDeleted then
          { r with
            localModified := some now,
            address := { r.address with
              timeLastUsed := now,
              timesUsed := r.address.timesUsed + 1 } }
        else r) = r := by
      intro r hr
      by_cases hg : r.address.guid = g
      · have hrl : r = l := nodup_find?_unique hwf.1 hl r hr hg
        rw [hrl, hd]
        simp
      · simp [hg]
    exact map_id_of_mem s.localRows _ hmapid
  · intro m hl hm
    unfold touch touchBody ensureLocalOverlayExists cloneMirrorToOverlay
    simp only [hl, Option.isSome_none, Bool.false_eq_true, if_false, hm,
      show ((1 : Nat) == 0) = false from rfl]
    refine ⟨by trivial, ?_⟩
    simp only [findLocal, markMirrorOverridden]
    rw [find?_map_pred _ _ (by
      intro a
      split <;> rfl)]
    rw [List.find?_append]
    unfold findLocal at hl
    rw [hl]
    have hmg : m.address.guid = g := by
      have := List.find?_some hm
      simpa using this
    simp [cloneOf, hmg]

/-- Counterexample to C9 as stated: with only a tombstone Local row the
record does not "exist", yet `touch` succeeds instead of failing with
NoSuchRecord; and the overlay `touch` clones from a Mirror-only record has
sync status Synced, not New. -/
theorem c9_counterexample :
    (existsRecord c3tomb "g1" = false ∧ (touch 5 "g1" c3tomb).1 = .ok ()) ∧
    ((findLocal (touch 5 "g1" c9mir).2 "g1").map (fun l => l.syncStatus) =
        some SyncStatus.synced ∧ SyncStatus.synced ≠ SyncStatus.new) :=
  ⟨⟨rfl, rfl⟩, ⟨rfl, by decide⟩⟩

/-- Witness for the amended C9 at the concrete Mirror-only state. -/
theorem c9_touch_amended_witness :
    findLocal c9mir "g1" = none ∧
    findMirror c9mir "g1" = some ⟨sampleAddr "g1" 0, 3, false⟩ ∧
    ((touch 5 "g1" c9mir).1 = .ok () ∧
      findLocal (touch 5 "g1" c9mir).2 "g1" = some
        { address := { (sampleAddr "g1" 0) with
            timeLastUsed := 5,
            timesUsed := (sampleAddr "g1" 0).timesUsed + 1 },
          localModified := some 5, isDeleted := false, syncStatus := .synced }) :=
  ⟨rfl, rfl, (c9_touch_amended 5 "g1" c9mir).2.2.2.2 ⟨sampleAddr "g1" 0, 3, false⟩ rfl rfl⟩

/-! Claim C4. -/

theorem mergeField_map {α β : Type} (g : α → β) (x y : Option α) (w : Bool) :
    mergeField (x.map g) (y.map g) w = (mergeField x y w).map g := by
  cases x <;> cases y <;> cases w <;> rfl

theorem getD_map {α β : Type} (g : α → β) (x : Option α) (a : α) :
    (x.map g).getD (g a) = g (x.getD a) := by
  cases x <;> rfl

theorem delta_fieldSel (a b : Address) (f : Field) :
    (Address.delta a b).fieldSel f =
      if a.fieldVal f = b.fieldVal f then none else some (a.fieldVal f) := by
  cases f <;>
    simp only [Address.delta, AddressDelta.fieldSel, Address.fieldVal] <;>
    split_ifs <;>
    simp_all

theorem merge_fieldSel (d o : AddressDelta) (w : Bool) (f : Field) :
    (d.merge o w).fieldSel f = mergeField (d.fieldSel f) (o.fieldSel f) w := by
  cases f <;> exact (mergeField_map _ _ _ _).symm

theorem applyDelta_fieldVal (a : Address) (d : AddressDelta) (f : Field) :
    (a.applyDelta d).fieldVal f = (d.fieldSel f).getD (a.fieldVal f) := by
  cases f <;> exact (getD_map _ _ _).symm

theorem merged_fieldVal (lcl up A : Address) (w : Bool) (f : Field) :
    (A.applyDelta ((lcl.delta A).merge (up.delta A) w)).fieldVal f =
      if lcl.fieldVal f = A.fieldVal f then
        (if up.fieldVal f = A.fieldVal f then A.fieldVal f else up.fieldVal f)
      else
        (if up.fieldVal f = A.fieldVal f then lcl.fieldVal f
         else (if w then up.fieldVal f else lcl.fieldVal f)) := by
  rw [applyDelta_fieldVal, merge_fieldSel, delta_fieldSel, delta_fieldSel]
  by_cases h1 : lcl.fieldVal f = A.fieldVal f <;>
    by_cases h2 : up.fieldVal f = A.fieldVal f <;>
    simp [h1, h2, mergeField]

/-- C4: the record planned as the Local replacement by a three-way merge
carries its timestamp from the upstream; when the Local side changed only
field X against the shared Mirror ancestor and the remote only the disjoint
field Y, it carries the Local value of X and the remote value of Y, neither
reverting to the ancestor; and a field changed on both sides takes the remote
value exactly when the remote age (server time minus remote timestamp,
clamped at zero) is smaller than the local age (now minus local-modified,
clamped, with a NULL local-modified reading as 0), else the local value. -/
theorem c4_three_way_merge (p : UpdatePlan) (now serverNow : Int) (lcl : LocalRow)
    (shared : MirrorRow) (up : Address) (t : Int) :
    ∃ new : MirrorRow,
      (planThreeWayMerge p now serverNow lcl shared up t).localUpdates =
        p.localUpdates ++ [new] ∧
      new.serverModified = t ∧
      (∀ X Y : Field, X ≠ Y →
        (∀ f, f ≠ X → lcl.address.fieldVal f = shared.address.fieldVal f) →
        lcl.address.fieldVal X ≠ shared.address.fieldVal X →
        (∀ f, f ≠ Y → up.fieldVal f = shared.address.fieldVal f) →
        up.fieldVal Y ≠ shared.address.fieldVal Y →
        new.address.fieldVal X = lcl.address.fieldVal X ∧
        new.address.fieldVal Y = up.fieldVal Y ∧
        new.address.fieldVal X ≠ shared.address.fieldVal X ∧
        new.address.fieldVal Y ≠ shared.address.fieldVal Y) ∧
      (∀ f : Field, lcl.address.fieldVal f ≠ shared.address.fieldVal f →
        up.fieldVal f ≠ shared.address.fieldVal f →
        new.address.fieldVal f =
          if max (serverNow - t) 0 < max (now - lcl.localModified.getD 0) 0 then
            up.fieldVal f
          else lcl.address.fieldVal f) := by
  refine ⟨_, rfl, rfl, ?_, ?_⟩
  · intro X Y hXY hloc hX hup hY
    have hx := merged_fieldVal lcl.address up shared.address
        (decide (max (serverNow - t) 0 < max (now - lcl.localModified.getD 0) 0)) X
    rw [if_neg hX, if_pos (hup X hXY)] at hx
    have hy := merged_fieldVal lcl.address up shared.address
        (decide (max (serverNow - t) 0 < max (now - lcl.localModified.getD 0) 0)) Y
    rw [if_pos (hloc Y (Ne.symm hXY)), if_neg hY] at hy
    exact ⟨hx, hy, hx ▸ hX, hy ▸ hY⟩
  · intro f hXf hYf
    have hx := merged_fieldVal lcl.address up shared.address
        (decide (max (serverNow - t) 0 < max (now - lcl.localModified.getD 0) 0)) f
    rw [if_neg hXf, if_neg hYf] at hx
    rw [hx]
    by_cases hcmp : max (serverNow - t) 0 < max (now - lcl.localModified.getD 0) 0
    · simp [hcmp]
    · simp [hcmp]

/-- Witness for C4 at a concrete merge: local changed only the password,
remote only the username; the planned replacement keeps both changes. -/
theorem c4_three_way_merge_witness :
    ∃ new : MirrorRow,
      (planThreeWayMerge {} 100 50 c4lcl c4shared c4up 40).localUpdates = [new] ∧
      new.address.fieldVal .password = c4lcl.address.fieldVal .password ∧
      new.address.fieldVal .username = c4up.fieldVal .username ∧
      new.address.fieldVal .password ≠ c4shared.address.fieldVal .password ∧
      new.address.fieldVal .username ≠ c4shared.address.fieldVal .username := by
  obtain ⟨new, h1, _hsm, h2, _h3⟩ := c4_three_way_merge {} 100 50 c4lcl c4shared c4up 40
  have h4 := h2 .password .username (by decide) (by decide) (by decide) (by decide) (by decide)
  exact ⟨new, by simpa using h1, h4.1, h4.2.1, h4.2.2.1, h4.2.2.2⟩

/-! Claim C5. -/

theorem fetch_single_record (g : String) (u : Address) (t : Int) (s : DbState) :
    fetchAddressData [(⟨g, .record u⟩, t)] [] s =
      .ok ([{ guid := g, inbound := (some { u with guid := g }, t),
              localRow := findLocal s g, mirror := findMirror s g }], 0, []) := by
  have hch : chunksOf 999 (([((⟨g, PayloadKind.record u⟩ : Payload), t)].map
      (fun r => r.1.id)).enum) = [[(0, g)]] := by
    simp [chunksOf, List.enum, List.enumFrom]
  simp only [fetchAddressData]
  rw [hch]
  cases hm : findMirror s g <;> cases hl : findLocal s g <;>
    simp [dedupParse, fromPayload, fetchChunk, setMirrorSlot, setLocalSlot,
      errIfInterrupted, hm, hl, List.foldlM, bind, Except.bind, pure, Except.pure]

theorem reconcile_single (uhp : String → Option String) (s : DbState)
    (now serverNow : Int) (v : SyncAddressData) (p : UpdatePlan) :
    reconcile uhp s now serverNow [v] p [] =
      .ok (reconcileStep uhp s now serverNow p v, []) := rfl

theorem foldlM_out_nil {β γ : Type} (itemOf : β → γ) :
    ∀ (rows : List β) (acc : List γ),
      ∃ out, List.foldlM (fun (acc : List γ × List Bool) r => do
          let sc ← errIfInterrupted acc.2
          let item : γ := itemOf r
          pure (acc.1 ++ [item], sc)) ((acc, ([] : List Bool)) : List γ × List Bool) rows =
        .ok (out, []) := by
  intro rows
  induction rows with
  | nil => intro acc; exact ⟨acc, rfl⟩
  | cons r tl ih =>
    intro acc
    obtain ⟨out, hout⟩ := ih (acc ++ [itemOf r])
    exact ⟨out, by simpa [List.foldlM, bind, Except.bind, errIfInterrupted] using hout⟩

theorem fetchOutgoing_nil (s : DbState) : ∃ out, fetchOutgoing [] s = .ok (out, []) := by
  unfold fetchOutgoing
  exact foldlM_out_nil (fun r : LocalRow =>
    if r.isDeleted then
      ({ id := r.address.guid, isTombstone := true, record := none,
         sortindex := 5000000 } : OutgoingItem)
    else
      { id := r.address.guid, isTombstone := false, record := some r.address,
        sortindex := 1 }) _ []

theorem executePlan_insert_only (now : Int) (a : Address) (t : Int) (ov : Bool) (s : DbState) :
    executePlanBody now { mirrorInserts := [(a, t, ov)] } [] s =
      .ok (mirrorInsertOrIgnore a t ov s, []) := by
  simp [executePlanBody, performDeletes, performMirrorUpdates, performMirrorInserts,
    performLocalUpdates, chunksOf, errIfInterrupted, List.foldlM, bind, Except.bind,
    pure, Except.pure]

theorem executePlan_insert_delete (now : Int) (a : Address) (t : Int) (dg : String)
    (s : DbState) :
    executePlanBody now { deleteLocal := [dg], mirrorInserts := [(a, t, false)] } [] s =
      .ok (mirrorInsertOrIgnore a t false
        { s with localRows := s.localRows.filter (fun r =>
            !([dg].contains r.address.guid)) }, []) := by
  have hch : chunksOf 999 [dg] = [[dg]] := by simp [chunksOf]
  simp [executePlanBody, performDeletes, performMirrorUpdates, performMirrorInserts,
    performLocalUpdates, hch, errIfInterrupted, List.foldlM, bind, Except.bind,
    pure, Except.pure, chunksOf]

/-- C5: reconciliation of an incoming record with a Local row but no Mirror
row (and likewise with neither but a fuzzy dupe) is last-writer-wins on the
password-changed timestamp: when the local side is strictly newer the remote
goes into the Mirror flagged overridden and the Local row is untouched;
otherwise (equal timestamps included) the remote goes in not-overridden and
the Local row (the dupe's row in the dupe case) is deleted. Stated end to end
over a one-record `apply_incoming` batch. -/
theorem c5_two_way_lww (uhp : String → Option String) (now serverNow : Int)
    (g : String) (u : Address) (t : Int) (s : DbState) :
    (∀ l, findLocal s g = some l → findMirror s g = none →
      (∃ out, (doApplyIncoming uhp now [(⟨g, .record u⟩, t)] serverNow [] s).1 =
        .ok out) ∧
      (l.address.timePasswordChanged > u.timePasswordChanged →
        (doApplyIncoming uhp now [(⟨g, .record u⟩, t)] serverNow [] s).2 =
          { s with mirrorRows := s.mirrorRows ++ [⟨{ u with guid := g }, t, true⟩] }) ∧
      (¬ l.address.timePasswordChanged > u.timePasswordChanged →
        (doApplyIncoming uhp now [(⟨g, .record u⟩, t)] serverNow [] s).2 =
          { s with
            localRows := s.localRows.filter (fun r => !([g].contains r.address.guid)),
            mirrorRows := s.mirrorRows ++ [⟨{ u with guid := g }, t, false⟩] })) ∧
    (∀ d, findLocal s g = none → findMirror s g = none →
      findDupe uhp s { u with guid := g } = some d →
      (∃ out, (doApplyIncoming uhp now [(⟨g, .record u⟩, t)] serverNow [] s).1 =
        .ok out) ∧
      (d.timePasswordChanged > u.timePasswordChanged →
        (doApplyIncoming uhp now [(⟨g, .record u⟩, t)] serverNow [] s).2 =
          { s with mirrorRows := s.mirrorRows ++ [⟨{ u with guid := g }, t, true⟩] }) ∧
      (¬ d.timePasswordChanged > u.timePasswordChanged →
        (doApplyIncoming uhp now [(⟨g, .record u⟩, t)] serverNow [] s).2 =
          { s with
            localRows := s.localRows.filter (fun r =>
              !([d.guid].contains r.address.guid)),
            mirrorRows := s.mirrorRows ++ [⟨{ u with guid := g }, t, false⟩] })) := by
  constructor
  · intro l hl hm
    have hlg : l.address.guid = g := findLocal_guid hl
    have hfetch := fetch_single_record g u t s
    rw [hl, hm] at hfetch
    simp only [doApplyIncoming, hfetch, reconcile_single, reconcileStep, planTwoWayMerge]
    by_cases hcmp : l.address.timePasswordChanged > u.timePasswordChanged
    · have hdec : decide (l.address.timePasswordChanged > u.timePasswordChanged) = true :=
        decide_eq_true hcmp
      simp only [hdec, Bool.not_true, Bool.false_eq_true, if_false, List.nil_append]
      rw [executePlan_insert_only]
      have hins : mirrorInsertOrIgnore { u with guid := g } t true s =
          { s with mirrorRows := s.mirrorRows ++ [⟨{ u with guid := g }, t, true⟩] } := by
        unfold mirrorInsertOrIgnore
        simp [hm]
      rw [hins]
      dsimp only
      obtain ⟨out, hout⟩ := fetchOutgoing_nil
        { s with mirrorRows := s.mirrorRows ++ [⟨{ u with guid := g }, t, true⟩] }
      rw [hout]
      exact ⟨⟨out, rfl⟩, fun _ => rfl, fun hc => absurd hcmp hc⟩
    · have hdec : decide (l.address.timePasswordChanged > u.timePasswordChanged) = false :=
        decide_eq_false hcmp
      simp only [hdec, Bool.not_false, if_true, List.nil_append, hlg]
      rw [executePlan_insert_delete]
      have hins : mirrorInsertOrIgnore { u with guid := g } t false
          { s with localRows := s.localRows.filter (fun r =>
              !([g].contains r.address.guid)) } =
          { s with
            localRows := s.localRows.filter (fun r => !([g].contains r.address.guid)),
            mirrorRows := s.mirrorRows ++ [⟨{ u with guid := g }, t, false⟩] } := by
        unfold mirrorInsertOrIgnore findMirror
        dsimp only
        unfold findMirror at hm
        simp [hm]
      rw [hins]
      dsimp only
      obtain ⟨out, hout⟩ := fetchOutgoing_nil
          { s with
            localRows := s.localRows.filter (fun r => !([g].contains r.address.guid)),
            mirrorRows := s.mirrorRows ++ [⟨{ u with guid := g }, t, false⟩] }
      rw [hout]
      exact ⟨⟨out, rfl⟩, fun hc => absurd hc hcmp, fun _ => rfl⟩
  · intro d hl hm hd
    have hfetch := fetch_single_record g u t s
    rw [hl, hm] at hfetch
    simp only [doApplyIncoming, hfetch, reconcile_single, reconcileStep, hd,
      planTwoWayMerge]
    by_cases hcmp : d.timePasswordChanged > u.timePasswordChanged
    · have hdec : decide (d.timePasswordChanged > u.timePasswordChanged) = true :=
        decide_eq_true hcmp
      simp only [hdec, Bool.not_true, Bool.false_eq_true, if_false, List.nil_append]
      rw [executePlan_insert_only]
      have hins : mirrorInsertOrIgnore { u with guid := g } t true s =
          { s with mirrorRows := s.mirrorRows ++ [⟨{ u with guid := g }, t, true⟩] } := by
        unfold mirrorInsertOrIgnore
        simp [hm]
      rw [hins]
      dsimp only
      obtain ⟨out, hout⟩ := fetchOutgoing_nil
        { s with mirrorRows := s.mirrorRows ++ [⟨{ u with guid := g }, t, true⟩] }
      rw [hout]
      exact ⟨⟨out, rfl⟩, fun _ => rfl, fun hc => absurd hcmp hc⟩
    · have hdec : decide (d.timePasswordChanged > u.timePasswordChanged) = false :=
        decide_eq_false hcmp
      simp only [hdec, Bool.not_false, if_true, List.nil_append]
      rw [executePlan_insert_delete]
      have hins : mirrorInsertOrIgnore { u with guid := g } t false
          { s with localRows := s.localRows.filter (fun r =>
              !([d.guid].contains r.address.guid)) } =
          { s with
            localRows := s.localRows.filter (fun r =>
              !([d.guid].contains r.address.guid)),
            mirrorRows := s.mirrorRows ++ [⟨{ u with guid := g }, t, false⟩] } := by
        unfold mirrorInsertOrIgnore findMirror
        dsimp only
        unfold findMirror at hm
        simp [hm]
      rw [hins]
      dsimp only
      obtain ⟨out, hout⟩ := fetchOutgoing_nil
          { s with
            localRows := s.localRows.filter (fun r =>
              !([d.guid].contains r.address.guid)),
            mirrorRows := s.mirrorRows ++ [⟨{ u with guid := g }, t, false⟩] }
      rw [hout]
      exact ⟨⟨out, rfl⟩, fun hc => absurd hc hcmp, fun _ => rfl⟩

/-- Witness for C5: a concrete local-newer two-way merge. -/
theorem c5_two_way_lww_witness :
    findLocal c3live "g1" = some ⟨sampleAddr "g1" 7, some 1, false, .new⟩ ∧
    findMirror c3live "g1" = none ∧
    (sampleAddr "g1" 7).timePasswordChanged > (sampleAddr "g1" 3).timePasswordChanged ∧
    (doApplyIncoming (fun _ => none) 0
        [(⟨"g1", .record (sampleAddr "g1" 3)⟩, 40)] 50 [] c3live).2 =
      { c3live with mirrorRows := c3live.mirrorRows ++
          [⟨{ sampleAddr "g1" 3 with guid := "g1" }, 40, true⟩] } := by
  have h := (c5_two_way_lww (fun _ => none) 0 50 "g1" (sampleAddr "g1" 3) 40 c3live).1
    ⟨sampleAddr "g1" 7, some 1, false, .new⟩ rfl rfl
  exact ⟨rfl, rfl, by decide, h.2.1 (by decide)⟩

end Addresses

namespace Addresses

theorem inv_of_parts {s2 s : DbState} {g : String} (hInv : Inv s)
    (hL : ∀ r ∈ s2.localRows, r.address.guid = g ∨
      ∃ r0 ∈ s.localRows, r0.address.guid = r.address.guid)
    (hM : ∀ m ∈ s2.mirrorRows,
      (m.address.guid = g → m.isOverridden = true) ∧
      (m.address.guid ≠ g → ∃ m0 ∈ s.mirrorRows,
        m0.address.guid = m.address.guid ∧ m.isOverridden = m0.isOverridden)) :
    Inv s2 := by
  intro r hr m hm heq
  by_cases hg : r.address.guid = g
  · exact (hM m hm).1 (heq.trans hg)
  · rcases hL r hr with hgl | ⟨r0, hr0, hgeq⟩
    · exact absurd hgl hg
    · obtain ⟨m0, hm0, hmg, hflag⟩ := (hM m hm).2 (fun h => hg (h ▸ heq ▸ rfl))
      rw [hflag]
      exact hInv r0 hr0 m0 hm0 (by rw [hmg, heq, hgeq])

theorem mark_hM (g : String) (s : DbState) :
    ∀ m ∈ (markMirrorOverridden g s).mirrorRows,
      (m.address.guid = g → m.isOverridden = true) ∧
      (m.address.guid ≠ g → ∃ m0 ∈ s.mirrorRows,
        m0.address.guid = m.address.guid ∧ m.isOverridden = m0.isOverridden) := by
  intro m hm
  unfold markMirrorOverridden at hm
  simp only [List.mem_map] at hm
  obtain ⟨m0, hm0, hm0eq⟩ := hm
  by_cases hg0 : m0.address.guid = g
  · have hmg : m.address.guid = g := by rw [← hm0eq]; simp [hg0]
    have hov : m.isOverridden = true := by rw [← hm0eq]; simp [hg0]
    exact ⟨fun _ => hov, fun h => absurd hmg h⟩
  · have hmeq : m = m0 := by rw [← hm0eq]; simp [hg0]
    exact ⟨fun h => absurd (hmeq ▸ h) hg0,
      fun _ => ⟨m0, hm0, by rw [hmeq], by rw [hmeq]⟩⟩

theorem touch_map_hL (g : String) (rows : List LocalRow) (f : LocalRow → LocalRow)
    (hf : ∀ r, (f r).address.guid = r.address.guid) :
    ∀ r ∈ rows.map f, ∃ r0 ∈ rows, r0.address.guid = r.address.guid := by
  intro r hr
  obtain ⟨r1, hr1, hr1eq⟩ := List.mem_map.mp hr
  exact ⟨r1, hr1, by rw [← hr1eq, hf]⟩

theorem inv_touch (now : Int) (g : String) (s : DbState) (hInv : Inv s) :
    Inv (touch now g s).2 := by
  unfold touch touchBody ensureLocalOverlayExists cloneMirrorToOverlay
  cases hl : findLocal s g
  case none =>
    cases hm : findMirror s g
    case none =>
      simp only [hl, hm, Option.isSome_none, Bool.false_eq_true, if_false]
      exact hInv
    case some m =>
      simp only [hl, hm, Option.isSome_none, Bool.false_eq_true, if_false,
        show ((1 : Nat) == 0) = false from rfl]
      refine inv_of_parts (g := g) hInv ?_ ?_
      · intro r hr
        obtain ⟨r1, hr1, hr1eq⟩ := List.mem_map.mp hr
        have hguid : r.address.guid = r1.address.guid := by
          rw [← hr1eq]
          split <;> rfl
        rcases List.mem_append.mp hr1 with hr1l | hr1r
        · exact Or.inr ⟨r1, hr1l, hguid.symm⟩
        · rw [List.mem_singleton] at hr1r
          refine Or.inl ?_
          rw [hguid, hr1r]
          exact findMirror_guid hm
      · intro m2 hm2
        exact mark_hM g { s with localRows := s.localRows ++ [cloneOf m] } m2 hm2
  case some l =>
    simp only [hl, Option.isSome_some, if_true]
    refine inv_of_parts (g := g) hInv ?_ ?_
    · intro r hr
      refine Or.inr (touch_map_hL g s.localRows _ ?_ r hr)
      intro r1
      split <;> rfl
    · intro m2 hm2
      exact mark_hM g s m2 hm2

end Addresses

namespace Addresses

theorem inv_update (now : Int) (a : Address) (s : DbState) (hInv : Inv s) :
    Inv (update now a s).2 := by
  unfold update updateBody ensureLocalOverlayExists cloneMirrorToOverlay updateStmt
  cases hv : checkValid a
  case error e => exact hInv
  case ok u =>
    cases hl : findLocal s a.guid
    case none =>
      cases hm : findMirror s a.guid
      case none =>
        simp only [hl, hm, Option.isSome_none, Bool.false_eq_true, if_false]
        exact hInv
      case some m =>
        simp only [hl, hm, Option.isSome_none, Bool.false_eq_true, if_false,
          show ((1 : Nat) == 0) = false from rfl]
        refine inv_of_parts (g := a.guid) hInv ?_ ?_
        · intro r hr
          obtain ⟨r1, hr1, hr1eq⟩ := List.mem_map.mp hr
          have hguid : r.address.guid = r1.address.guid := by
            rw [← hr1eq]
            split <;> rfl
          rcases List.mem_append.mp hr1 with hr1l | hr1r
          · exact Or.inr ⟨r1, hr1l, hguid.symm⟩
          · rw [List.mem_singleton] at hr1r
            refine Or.inl ?_
            rw [hguid, hr1r]
            exact findMirror_guid hm
        · intro m2 hm2
          exact mark_hM a.guid { s with localRows := s.localRows ++ [cloneOf m] } m2 hm2
    case some l =>
      simp only [hl, Option.isSome_some, if_true]
      refine inv_of_parts (g := a.guid) hInv ?_ ?_
      · intro r hr
        refine Or.inr (touch_map_hL a.guid s.localRows _ ?_ r hr)
        intro r1
        split <;> rfl
      · intro m2 hm2
        exact mark_hM a.guid s m2 hm2

theorem inv_delete (now : Int) (g : String) (s : DbState) (hInv : Inv s) :
    Inv (delete now g s).2 := by
  unfold delete
  dsimp only
  have hparts : ∀ r ∈ (markMirrorOverridden g
      { s with localRows := (s.localRows.filter (fun r =>
          !(r.address.guid == g && r.syncStatus == SyncStatus.new))).map (fun r =>
            if r.address.guid == g then
              { r with
                localModified := some now, syncStatus := .changed, isDeleted := true,
                address := { r.address with password := "", hostname := "", username := "" } }
            else r) }).localRows,
      r.address.guid = g ∨ ∃ r0 ∈ s.localRows, r0.address.guid = r.address.guid := by
    intro r hr
    obtain ⟨r1, hr1, hr1eq⟩ := List.mem_map.mp hr
    have hguid : r.address.guid = r1.address.guid := by
      rw [← hr1eq]
      split <;> rfl
    exact Or.inr ⟨r1, (List.mem_filter.mp hr1).1, hguid.symm⟩
  split
  case h_1 heq =>
    exact inv_of_parts (g := g) hInv hparts (fun m2 hm2 => mark_hM g _ m2 hm2)
  case h_2 m heq =>
    split
    case isTrue => exact inv_of_parts (g := g) hInv hparts (fun m2 hm2 => mark_hM g _ m2 hm2)
    case isFalse =>
      refine inv_of_parts (g := g) hInv ?_ ?_
      · intro r hr
        rcases List.mem_append.mp hr with hrl | hrr
        · exact hparts r hrl
        · rw [List.mem_singleton] at hrr
          refine Or.inl ?_
          rw [hrr]
          exact findMirror_guid heq
      · intro m2 hm2
        exact mark_hM g _ m2 hm2

theorem import_fold_mirror (now : Int) (validGuid : String → Bool) (fresh : Nat → String) :
    ∀ (l : List (Nat × Address)) (acc : DbState × Int),
      (l.foldl (fun (acc : DbState × Int) ia =>
        match checkValid ia.2 with
        | .error _ => (acc.1, acc.2 + 1)
        | .ok _ =>
          let g := if validGuid ia.2.guid then ia.2.guid else fresh ia.1
          if (findLocal acc.1 g).isSome then acc
          else
            ({ acc.1 with localRows := acc.1.localRows ++
                [{ address := { ia.2 with guid := g }, localModified := some now,
                   isDeleted := false, syncStatus := .new }] }, acc.2)) acc).1.mirrorRows =
      acc.1.mirrorRows := by
  intro l
  induction l with
  | nil => intro acc; rfl
  | cons ia t ih =>
    intro acc
    rw [List.foldl_cons, ih]
    cases checkValid ia.2
    · rfl
    · dsimp only
      split
      · split <;> rfl
      · split <;> rfl

theorem inv_importMultiple (now : Int) (validGuid : String → Bool) (fresh : Nat → String)
    (addrs : List Address) (s : DbState) (hInv : Inv s) :
    Inv (importMultiple now validGuid fresh addrs s).2 := by
  unfold importMultiple
  split
  case isTrue => exact hInv
  case isFalse hc =>
    intro r hr m hm heq
    rw [import_fold_mirror now validGuid fresh addrs.enum (s, 0)] at hm
    have hlen : s.mirrorRows.length = 0 := by omega
    rw [List.length_eq_zero] at hlen
    rw [hlen] at hm
    simp at hm

end Addresses

namespace Addresses

theorem foldl_append_local_mirror {β : Type} (key : β → String) (mk : β → LocalRow) :
    ∀ (l : List β) (st : DbState),
      ((l.foldl (fun st b =>
        if (findLocal st (key b)).isSome then st
        else { st with localRows := st.localRows ++ [mk b] }) st).mirrorRows =
          st.mirrorRows) ∧
      ((l.foldl (fun st b =>
        if (findLocal st (key b)).isSome then st
        else { st with localRows := st.localRows ++ [mk b] }) st).meta = st.meta) := by
  intro l
  induction l with
  | nil => intro st; exact ⟨rfl, rfl⟩
  | cons b t ih =>
    intro st
    rw [List.foldl_cons]
    refine ⟨?_, ?_⟩ <;>
      (rcases ih (if (findLocal st (key b)).isSome then st
          else { st with localRows := st.localRows ++ [mk b] }) with ⟨h1, h2⟩;
       first
        | (rw [h1]; split <;> rfl)
        | (rw [h2]; split <;> rfl))

theorem inv_wipe (now : Int) (sc : List Bool) (s : DbState) (hInv : Inv s) :
    Inv (wipe now sc s).2 := by
  unfold wipe
  cases hb : wipeBody now sc s
  case error e => exact hInv
  case ok s4 =>
    simp only [wipeBody, bind, Except.bind] at hb
    cases h1 : errIfInterrupted sc <;> rw [h1] at hb
    case error e => cases hb
    case ok sc1 =>
      dsimp only at hb
      cases h2 : errIfInterrupted sc1 <;> rw [h2] at hb
      case error e => cases hb
      case ok sc2 =>
        dsimp only at hb
        cases h3 : errIfInterrupted sc2 <;> rw [h3] at hb
        case error e => cases hb
        case ok sc3 =>
          dsimp only at hb
          cases h4 : errIfInterrupted sc3 <;> rw [h4] at hb
          case error e => cases hb
          case ok sc4 =>
            dsimp only at hb
            simp only [pure, Except.pure, Except.ok.injEq] at hb
            intro r hr m hm heq
            rw [← hb] at hm
            rw [(foldl_append_local_mirror
              (fun m : MirrorRow => m.address.guid) (tombstoneOf now) _ _).1] at hm
            obtain ⟨m0, hm0, hm0eq⟩ := List.mem_map.mp hm
            rw [← hm0eq]

theorem inv_wipeLocal (s : DbState) (hInv : Inv s) : Inv (wipeLocal s).2 := by
  intro r hr m hm heq
  simp [wipeLocal] at hm

theorem inv_reset (assoc : StoreSyncAssociation) (s : DbState) (hInv : Inv s) :
    Inv (reset assoc s).2 := by
  intro r hr m hm heq
  cases assoc <;> simp [reset, setLastSync] at hm

end Addresses

namespace Addresses

theorem masfold_props (ts : Int) :
    ∀ (rows : List LocalRow) (st : DbState),
      ((rows.foldl (fun st r =>
          if (findMirror st r.address.guid).isSome then st
          else { st with mirrorRows := st.mirrorRows ++
              [{ address := r.address, serverModified := ts, isOverridden := false }] })
        st).localRows = st.localRows) ∧
      ((rows.foldl (fun st r =>
          if (findMirror st r.address.guid).isSome then st
          else { st with mirrorRows := st.mirrorRows ++
              [{ address := r.address, serverModified := ts, isOverridden := false }] })
        st).meta = st.meta) ∧
      (∀ m ∈ (rows.foldl (fun st r =>
          if (findMirror st r.address.guid).isSome then st
          else { st with mirrorRows := st.mirrorRows ++
              [{ address := r.address, serverModified := ts, isOverridden := false }] })
        st).mirrorRows,
        m ∈ st.mirrorRows ∨ ∃ r ∈ rows,
          m = { address := r.address, serverModified := ts, isOverridden := false }) := by
  intro rows
  induction rows with
  | nil => intro st; exact ⟨rfl, rfl, fun m hm => Or.inl hm⟩
  | cons r t ih =>
    intro st
    rw [List.foldl_cons]
    by_cases hf : (findMirror st r.address.guid).isSome = true
    · rw [if_pos hf]
      obtain ⟨ih1, ih2, ih3⟩ := ih st
      refine ⟨ih1, ih2, fun m hm => ?_⟩
      rcases ih3 m hm with h | ⟨r2, hr2, he⟩
      · exact Or.inl h
      · exact Or.inr ⟨r2, List.mem_cons_of_mem _ hr2, he⟩
    · rw [if_neg hf]
      obtain ⟨ih1, ih2, ih3⟩ := ih { st with mirrorRows := st.mirrorRows ++
          [{ address := r.address, serverModified := ts, isOverridden := false }] }
      refine ⟨ih1, ih2, fun m hm => ?_⟩
      rcases ih3 m hm with h | ⟨r2, hr2, he⟩
      · rcases List.mem_append.mp h with h2 | h2
        · exact Or.inl h2
        · rw [List.mem_singleton] at h2
          exact Or.inr ⟨r, List.mem_cons_self _ _, h2⟩
      · exact Or.inr ⟨r2, List.mem_cons_of_mem _ hr2, he⟩

theorem masChunk_inv (ts : Int) (ch : List String) (s : DbState) (sc : List Bool)
    (z : DbState × List Bool) (h : masChunk ts ch s sc = .ok z) (hInv : Inv s) :
    Inv z.1 := by
  simp only [masChunk, bind, Except.bind] at h
  cases h1 : errIfInterrupted sc <;> rw [h1] at h
  case error e => cases h
  case ok sc1 =>
    dsimp only at h
    cases h2 : errIfInterrupted sc1 <;> rw [h2] at h
    case error e => cases h
    case ok sc2 =>
      dsimp only at h
      cases h3 : errIfInterrupted sc2 <;> rw [h3] at h
      case error e => cases h
      case ok sc3 =>
        dsimp only at h
        simp only [pure, Except.pure, Except.ok.injEq] at h
        rw [← h]
        intro r hr m hm heq
        dsimp only at hr hm
        rw [(masfold_props ts _ _).1] at hr
        have hr2 := List.mem_filter.mp hr
        rcases (masfold_props ts _ _).2.2 m hm with hmm | ⟨r2, hr2f, he⟩
        · have hmm2 := List.mem_filter.mp hmm
          exact hInv r hr2.1 m hmm2.1 heq
        · exfalso
          have hf2 := (List.mem_filter.mp hr2f).2
          simp only [Bool.and_eq_true] at hf2
          have hmg : m.address.guid = r2.address.guid := by rw [he]
          have hnotin := hr2.2
          simp only [Bool.not_eq_true'] at hnotin
          rw [← heq, hmg, hf2.2] at hnotin
          cases hnotin
        
theorem mas_chunks_inv (ts : Int) :
    ∀ (cs : List (List String)) (acc : DbState × List Bool) (z : DbState × List Bool),
      cs.foldlM (fun (acc : DbState × List Bool) ch => masChunk ts ch acc.1 acc.2) acc =
        .ok z → Inv acc.1 → Inv z.1 := by
  intro cs
  induction cs with
  | nil =>
    intro acc z h hInv
    simp only [List.foldlM, pure, Except.pure, Except.ok.injEq] at h
    rw [← h]
    exact hInv
  | cons ch t ih =>
    intro acc z h hInv
    rw [List.foldlM_cons] at h
    simp only [bind, Except.bind] at h
    cases hc : masChunk ts ch acc.1 acc.2 <;> rw [hc] at h
    case error e => cases h
    case ok z1 => exact ih z1 z h (masChunk_inv ts ch acc.1 acc.2 z1 hc hInv)

theorem inv_markAsSynchronized (gs : List String) (ts : Int) (sc : List Bool)
    (s : DbState) (hInv : Inv s) : Inv (markAsSynchronized gs ts sc s).2 := by
  unfold markAsSynchronized
  cases hb : masBody gs ts sc s
  case error e => exact hInv
  case ok s1 =>
    simp only [masBody, bind, Except.bind] at hb
    cases hf : (chunksOf 999 gs).foldlM
        (fun (acc : DbState × List Bool) ch => masChunk ts ch acc.1 acc.2) (s, sc) <;>
      rw [hf] at hb
    case error e => cases hb
    case ok res =>
      simp only [pure, Except.pure, Except.ok.injEq] at hb
      rw [← hb]
      exact mas_chunks_inv ts (chunksOf 999 gs) (s, sc) res hf hInv

end Addresses

namespace Addresses

/-- Concatenating the chunks of `each_chunk` recovers the original list. -/
theorem chunksOf_flatten_aux {α : Type} (n : Nat) :
    ∀ (k : Nat) (l : List α), l.length ≤ k → (chunksOf n l).flatten = l := by
  intro k
  induction k with
  | zero =>
    intro l hl
    have hnil : l = [] := List.eq_nil_of_length_eq_zero (Nat.le_zero.mp hl)
    subst hnil
    cases n <;> simp [chunksOf]
  | succ k ih =>
    intro l hl
    cases l with
    | nil => cases n <;> simp [chunksOf]
    | cons a t =>
      cases n with
      | zero => simp [chunksOf]
      | succ m =>
        have heq : chunksOf (m + 1) (a :: t) =
            (a :: t.take m) :: chunksOf (m + 1) (t.drop m) := by
          simp [chunksOf]
        have hle : (t.drop m).length ≤ k := by
          simp only [List.length_cons] at hl
          simp only [List.length_drop]
          omega
        rw [heq, List.flatten_cons, ih (t.drop m) hle, List.cons_append,
          List.take_append_drop]

theorem chunksOf_flatten {α : Type} (n : Nat) (l : List α) :
    (chunksOf n l).flatten = l :=
  chunksOf_flatten_aux n l.length l (le_refl _)

/-- With no garbage payload, the dedup-and-parse loop keeps every record, in
order, as its base view. -/
theorem dedupParse_no_garbage :
    ∀ (records : List (Payload × Int)) (seen : List String)
      (acc : List SyncAddressData) (failed : Nat)
      (res : List SyncAddressData × Nat),
      dedupParse records seen acc failed = .ok res →
      (∀ pt ∈ records, pt.1.kind ≠ PayloadKind.garbage) →
      res.1 = acc ++ records.map (fun pt => baseView pt.1 pt.2) := by
  intro records
  induction records with
  | nil =>
    intro seen acc failed res h hng
    simp only [dedupParse, Except.ok.injEq] at h
    rw [← h]
    simp
  | cons pt rest ih =>
    intro seen acc failed res h hng
    obtain ⟨p, ts⟩ := pt
    simp only [dedupParse] at h
    by_cases hc : seen.contains p.id
    · rw [if_pos hc] at h
      cases h
    · rw [if_neg hc] at h
      have hng1 : p.kind ≠ PayloadKind.garbage := hng (p, ts) (List.mem_cons_self _ _)
      have hfp : fromPayload p ts = some (baseView p ts) := by
        cases hk : p.kind
        case tombstone => simp [fromPayload, baseView, hk]
        case record a => simp [fromPayload, baseView, hk]
        case garbage => exact absurd hk hng1
      rw [hfp] at h
      dsimp only at h
      have := ih (p.id :: seen) (acc ++ [baseView p ts]) failed res h
        (fun pt2 hpt2 => hng pt2 (List.mem_cons_of_mem _ hpt2))
      rw [this]
      simp

end Addresses

namespace Addresses

/-- The mirror pass of one fetch chunk rewrites only `mirror` slots: every
output slot keeps its input slot's identity, inbound record and Local slot. -/
theorem mirror_pass_slots (s : DbState) :
    ∀ (ps : List (Nat × String)) (w : List SyncAddressData) (sc : List Bool)
      (res : List SyncAddressData × List Bool),
      ps.foldlM (fun (acc : List SyncAddressData × List Bool) ig =>
        match findMirror s ig.2 with
        | none => pure acc
        | some m => do
          let vs ← setMirrorSlot acc.1 ig.1 m
          let sc1 ← errIfInterrupted acc.2
          pure (vs, sc1)) (w, sc) = .ok res →
      res.1.length = w.length ∧
      ∀ i v2, res.1.get? i = some v2 → ∃ v, w.get? i = some v ∧
        v2.guid = v.guid ∧ v2.inbound = v.inbound ∧ v2.localRow = v.localRow := by
  intro ps
  induction ps with
  | nil =>
    intro w sc res h
    simp only [List.foldlM, pure, Except.pure, Except.ok.injEq] at h
    rw [← h]
    exact ⟨rfl, fun i v2 h2 => ⟨v2, h2, rfl, rfl, rfl⟩⟩
  | cons ig t ih =>
    intro w sc res h
    rw [List.foldlM_cons] at h
    simp only [bind, Except.bind] at h
    cases hm : findMirror s ig.2 <;> rw [hm] at h
    case none =>
      dsimp only at h
      simp only [pure, Except.pure] at h
      exact ih w sc res h
    case some m =>
      dsimp only at h
      simp only [setMirrorSlot] at h
      cases hg : w.get? ig.1 <;> rw [hg] at h
      case none =>
        dsimp only at h
        cases h
      case some v0 =>
        dsimp only at h
        by_cases hov : v0.mirror.isSome = true
        · rw [if_pos hov] at h
          dsimp only at h
          cases h
        · rw [if_neg hov] at h
          dsimp only at h
          cases hi : errIfInterrupted sc <;> rw [hi] at h
          · dsimp only at h
            cases h
          · dsimp only at h
            simp only [pure, Except.pure] at h
            obtain ⟨ihl, ihc⟩ := ih _ _ res h
            have hsetget : (w.set ig.1 { v0 with mirror := some m }).get? ig.1 =
                some { v0 with mirror := some m } := by
              rw [List.get?_set_eq, hg]
              rfl
            refine ⟨by rw [ihl, List.length_set], ?_⟩
            intro i v2 h2
            obtain ⟨v1, hv1, hg1, hi1, hl1⟩ := ihc i v2 h2
            by_cases hie : ig.1 = i
            · subst hie
              rw [hsetget] at hv1
              have hx : { v0 with mirror := some m } = v1 := Option.some.inj hv1
              subst hx
              exact ⟨v0, hg, hg1, hi1, hl1⟩
            · rw [List.get?_set_ne _ _ hie] at hv1
              exact ⟨v1, hv1, hg1, hi1, hl1⟩

/-- The local pass of one fetch chunk: every output slot keeps its input
slot's identity, inbound record and mirror slot; its Local slot is either
untouched or set to a Local row found for one of the chunk's pairs at that
index; and after the pass every chunk pair whose guid has a Local row points
at a filled slot. -/
theorem local_pass_slots (s : DbState) :
    ∀ (ps : List (Nat × String)) (w : List SyncAddressData) (sc : List Bool)
      (res : List SyncAddressData × List Bool),
      ps.foldlM (fun (acc : List SyncAddressData × List Bool) ig =>
        match findLocal s ig.2 with
        | none => pure acc
        | some l => do
          let vs ← setLocalSlot acc.1 ig.1 l
          let sc1 ← errIfInterrupted acc.2
          pure (vs, sc1)) (w, sc) = .ok res →
      res.1.length = w.length ∧
      (∀ i v2, res.1.get? i = some v2 → ∃ v, w.get? i = some v ∧
        v2.guid = v.guid ∧ v2.inbound = v.inbound ∧
        (v2.localRow = v.localRow ∨
          ∃ q ∈ ps, q.1 = i ∧ ∃ l, findLocal s q.2 = some l ∧ v2.localRow = some l)) ∧
      (∀ q ∈ ps, findLocal s q.2 = none ∨
        ∀ v2, res.1.get? q.1 = some v2 → v2.localRow.isSome = true) := by
  intro ps
  induction ps with
  | nil =>
    intro w sc res h
    simp only [List.foldlM, pure, Except.pure, Except.ok.injEq] at h
    rw [← h]
    exact ⟨rfl, fun i v2 h2 => ⟨v2, h2, rfl, rfl, Or.inl rfl⟩,
      fun q hq => absurd hq (List.not_mem_nil _)⟩
  | cons ig t ih =>
    intro w sc res h
    rw [List.foldlM_cons] at h
    simp only [bind, Except.bind] at h
    cases hm : findLocal s ig.2 <;> rw [hm] at h
    case none =>
      dsimp only at h
      simp only [pure, Except.pure] at h
      obtain ⟨ihl, ihc, ihp⟩ := ih w sc res h
      refine ⟨ihl, ?_, ?_⟩
      · intro i v2 h2
        obtain ⟨v, hv, hg1, hi1, hl1⟩ := ihc i v2 h2
        refine ⟨v, hv, hg1, hi1, ?_⟩
        rcases hl1 with hl1 | ⟨q, hq, hqi, l, hfl, hset⟩
        · exact Or.inl hl1
        · exact Or.inr ⟨q, List.mem_cons_of_mem _ hq, hqi, l, hfl, hset⟩
      · intro q hq
        rcases List.mem_cons.mp hq with hq | hq
        · subst hq
          exact Or.inl hm
        · exact ihp q hq
    case some l =>
      dsimp only at h
      simp only [setLocalSlot] at h
      cases hg : w.get? ig.1 <;> rw [hg] at h
      case none =>
        dsimp only at h
        cases h
      case some v0 =>
        dsimp only at h
        by_cases hov : v0.localRow.isSome = true
        · rw [if_pos hov] at h
          dsimp only at h
          cases h
        · rw [if_neg hov] at h
          dsimp only at h
          cases hi : errIfInterrupted sc <;> rw [hi] at h
          · dsimp only at h
            cases h
          · dsimp only at h
            simp only [pure, Except.pure] at h
            obtain ⟨ihl, ihc, ihp⟩ := ih _ _ res h
            have hsetget : (w.set ig.1 { v0 with localRow := some l }).get? ig.1 =
                some { v0 with localRow := some l } := by
              rw [List.get?_set_eq, hg]
              rfl
            refine ⟨by rw [ihl, List.length_set], ?_, ?_⟩
            · intro i v2 h2
              obtain ⟨v1, hv1, hg1, hi1, hl1⟩ := ihc i v2 h2
              by_cases hie : ig.1 = i
              · subst hie
                rw [hsetget] at hv1
                have hx : { v0 with localRow := some l } = v1 := Option.some.inj hv1
                subst hx
                refine ⟨v0, hg, hg1, hi1, ?_⟩
                rcases hl1 with hl1 | ⟨q, hq, hqi, l2, hfl, hset⟩
                · exact Or.inr ⟨ig, List.mem_cons_self _ _, rfl, l, hm, hl1⟩
                · exact Or.inr ⟨q, List.mem_cons_of_mem _ hq, hqi, l2, hfl, hset⟩
              · rw [List.get?_set_ne _ _ hie] at hv1
                refine ⟨v1, hv1, hg1, hi1, ?_⟩
                rcases hl1 with hl1 | ⟨q, hq, hqi, l2, hfl, hset⟩
                · exact Or.inl hl1
                · exact Or.inr ⟨q, List.mem_cons_of_mem _ hq, hqi, l2, hfl, hset⟩
            · intro q hq
              rcases List.mem_cons.mp hq with hq | hq
              · subst hq
                refine Or.inr ?_
                intro v2 h2
                obtain ⟨v1, hv1, _, _, hl1⟩ := ihc q.1 v2 h2
                rw [hsetget] at hv1
                have hx : { v0 with localRow := some l } = v1 := Option.some.inj hv1
                subst hx
                rcases hl1 with hl1 | ⟨q2, hq2, hq2i, l2, hfl, hset⟩
                · rw [hl1]
                  rfl
                · rw [hset]
                  rfl
              · exact ihp q hq

end Addresses

namespace Addresses

theorem fetchChunk_slots (s : DbState) (ch : List (Nat × String))
    (w : List SyncAddressData) (sc : List Bool)
    (res : List SyncAddressData × List Bool)
    (h : fetchChunk s ch w sc = .ok res) :
    res.1.length = w.length ∧
    (∀ i v2, res.1.get? i = some v2 → ∃ v, w.get? i = some v ∧
      v2.guid = v.guid ∧ v2.inbound = v.inbound ∧
      (v2.localRow = v.localRow ∨
        ∃ q ∈ ch, q.1 = i ∧ ∃ l, findLocal s q.2 = some l ∧ v2.localRow = some l)) ∧
    (∀ q ∈ ch, findLocal s q.2 = none ∨
      ∀ v2, res.1.get? q.1 = some v2 → v2.localRow.isSome = true) := by
  simp only [fetchChunk] at h
  cases h1 : ch.foldlM (fun (acc : List SyncAddressData × List Bool) ig =>
      match findMirror s ig.2 with
      | none => pure acc
      | some m => do
        let vs ← setMirrorSlot acc.1 ig.1 m
        let sc1 ← errIfInterrupted acc.2
        pure (vs, sc1)) (w, sc) <;> rw [h1] at h <;>
    simp only [bind, Except.bind] at h
  case error e => cases h
  case ok r1 =>
    obtain ⟨w1, sc1⟩ := r1
    obtain ⟨ml, mc⟩ := mirror_pass_slots s ch w sc (w1, sc1) h1
    obtain ⟨ll, lc, lp⟩ := local_pass_slots s ch w1 sc1 res h
    refine ⟨ll.trans ml, ?_, lp⟩
    intro i v2 h2
    obtain ⟨v1, hv1, hg1, hi1, hl1⟩ := lc i v2 h2
    obtain ⟨v, hv, hg0, hi0, hl0⟩ := mc i v1 hv1
    refine ⟨v, hv, hg1.trans hg0, hi1.trans hi0, ?_⟩
    rcases hl1 with hl1 | ⟨q, hq, hqi, l, hfl, hset⟩
    · exact Or.inl (hl1.trans hl0)
    · exact Or.inr ⟨q, hq, hqi, l, hfl, hset⟩

/-- The chunk fold of `fetch_address_data` discharges all pending pairs. -/
theorem fetch_fold_pendInv (s : DbState) :
    ∀ (cs : List (List (Nat × String))) (w : List SyncAddressData)
      (sc : List Bool) (res : List SyncAddressData × List Bool),
      cs.foldlM (fun (acc : List SyncAddressData × List Bool) ch =>
        fetchChunk s ch acc.1 acc.2) (w, sc) = .ok res →
      pendInv s cs.flatten w →
      pendInv s [] res.1 := by
  intro cs
  induction cs with
  | nil =>
    intro w sc res h hpend
    simp only [List.foldlM, pure, Except.pure, Except.ok.injEq] at h
    rw [← h]
    intro i v hv
    obtain ⟨p1, p2, p3, p4⟩ := hpend i v hv
    exact ⟨p1, p2, p3, p4⟩
  | cons ch t ih =>
    intro w sc res h hpend
    rw [List.foldlM_cons] at h
    simp only [bind, Except.bind] at h
    cases hc : fetchChunk s ch w sc <;> rw [hc] at h
    case error e => cases h
    case ok r1 =>
      dsimp only at h
      refine ih r1.1 r1.2 res ?_ ?_
      · exact h
      · intro i v2 hv2
        obtain ⟨hlen, hcorr, hproc⟩ := fetchChunk_slots s ch w sc r1 hc
        obtain ⟨v, hv, hg, hinb, hloc⟩ := hcorr i v2 hv2
        have hpend2 := hpend i v hv
        rw [List.flatten_cons] at hpend2
        obtain ⟨p1, p2, p3, p4⟩ := hpend2
        refine ⟨?_, ?_, ?_, ?_⟩
        · intro u hu
          rw [hg]
          refine p1 u ?_
          rw [← hinb]
          exact hu
        · intro l hl
          rcases hloc with hsame | ⟨⟨qi, qg⟩, hq, hqi, l0, hfl, hset⟩
          · rw [hsame] at hl
            rw [hg]
            exact p2 l hl
          · rw [hset] at hl
            have hl0 : l = l0 := (Option.some.inj hl).symm
            subst hl0
            have hlg : l.address.guid = qg := findLocal_guid hfl
            dsimp only at hqi
            subst hqi
            have := p4 qg (List.mem_append_left _ hq)
            rw [hlg, hg, this]
        · intro hnone
          rcases hloc with hsame | ⟨⟨qi, qg⟩, hq, hqi, l0, hfl, hset⟩
          · rcases p3 (by rw [← hsame]; exact hnone) with hfn | ⟨g, hgmem⟩
            · left
              rw [hg]
              exact hfn
            · rcases List.mem_append.mp hgmem with hin | hin
              · rcases hproc (i, g) hin with hfn | hsome
                · left
                  have hvg := p4 g (List.mem_append_left _ hin)
                  rw [hg, hvg]
                  exact hfn
                · exfalso
                  have := hsome v2 hv2
                  rw [hnone] at this
                  cases this
              · right
                exact ⟨g, hin⟩
          · rw [hset] at hnone
            exact Option.noConfusion hnone
        · intro g hgmem
          rw [hg]
          exact p4 g (List.mem_append_right _ hgmem)

/-- With no pending pairs the fill invariant gives view correctness. -/
theorem pendInv_viewP (s : DbState) (w : List SyncAddressData)
    (h : pendInv s [] w) : ∀ v ∈ w, ViewP s v := by
  intro v hv
  obtain ⟨i, hi⟩ := List.mem_iff_get?.mp hv
  obtain ⟨p1, p2, p3, p4⟩ := h i v hi
  refine ⟨p1, ?_, p2⟩
  intro hnone
  rcases p3 hnone with hfn | ⟨g, hg⟩
  · exact hfn
  · exact absurd hg (List.not_mem_nil _)

end Addresses

namespace Addresses

/-- On a garbage-free batch, every view `fetch_address_data` returns is
correct for the state it was fetched from. -/
theorem fetch_views_ok (records : List (Payload × Int)) (scope : List Bool)
    (s : DbState) (views : List SyncAddressData) (failed : Nat) (sc1 : List Bool)
    (hng : ∀ pt ∈ records, pt.1.kind ≠ PayloadKind.garbage)
    (h : fetchAddressData records scope s = .ok (views, failed, sc1)) :
    ∀ v ∈ views, ViewP s v := by
  simp only [fetchAddressData] at h
  cases hdp : dedupParse records [] [] 0 <;> rw [hdp] at h <;>
    simp only [bind, Except.bind] at h
  case error e => cases h
  case ok pf =>
    cases hic : errIfInterrupted scope <;> rw [hic] at h
    case error e => cases h
    case ok sc0 =>
      dsimp only at h
      cases hfold : (chunksOf 999 ((records.map (fun r => r.1.id)).enum)).foldlM
          (fun (acc : List SyncAddressData × List Bool) ch =>
            fetchChunk s ch acc.1 acc.2) (pf.1, sc0) <;> rw [hfold] at h
      case error e => cases h
      case ok fres =>
        dsimp only at h
        simp only [pure, Except.pure, Except.ok.injEq, Prod.mk.injEq] at h
        have hviews : views = fres.1 := h.1.symm
        have hbase : pf.1 = records.map (fun pt => baseView pt.1 pt.2) := by
          have := dedupParse_no_garbage records [] [] 0 pf hdp hng
          rw [this]
          simp
        have hinit : pendInv s
            ((chunksOf 999 ((records.map (fun r => r.1.id)).enum)).flatten) pf.1 := by
          rw [chunksOf_flatten, hbase]
          intro i v hv
          rw [List.get?_map] at hv
          cases hrec : records.get? i <;> rw [hrec] at hv
          case none => cases hv
          case some pt =>
            have hveq : v = baseView pt.1 pt.2 := (Option.some.inj hv).symm
            subst hveq
            refine ⟨?_, ?_, ?_, ?_⟩
            · intro u hu
              cases hk : pt.1.kind <;> simp only [baseView, hk] at hu ⊢
              · cases hu
              · rw [← Option.some.inj hu]
              · cases hu
            · intro l hl
              cases hl
            · intro _
              refine Or.inr ⟨pt.1.id, ?_⟩
              rw [List.mem_enum_iff_get?, List.get?_map, hrec]
              rfl
            · intro g hg
              rw [List.mem_enum_iff_get?, List.get?_map, hrec] at hg
              exact Option.some.inj hg
        have hfin := fetch_fold_pendInv s _ pf.1 sc0 fres hfold hinit
        rw [hviews]
        exact pendInv_viewP s fres.1 hfin

end Addresses

namespace Addresses

/-- A two-way merge keeps the plan sound for `Inv` as long as the local side
it was given either is the upstream record's own row (same guid) or the state
has no Local row at all for the upstream guid. -/
theorem planTwoWayMerge_planOK (s : DbState) (p : UpdatePlan) (lc : Address)
    (up : Address × Int) (hp : PlanOK s p)
    (hcase : lc.guid = up.1.guid ∨ ∀ r ∈ s.localRows, r.address.guid ≠ up.1.guid) :
    PlanOK s (planTwoWayMerge p lc up) := by
  unfold planTwoWayMerge
  dsimp only
  by_cases hc : lc.timePasswordChanged > up.1.timePasswordChanged
  · simp only [decide_eq_true hc, Bool.not_true, Bool.false_eq_true, if_false]
    intro a t hmem
    rcases List.mem_append.mp hmem with ho | hn
    · rcases hp a t ho with h1 | h2
      · exact Or.inl h1
      · exact Or.inr h2
    · rw [List.mem_singleton] at hn
      simp at hn
  · simp only [decide_eq_false hc, Bool.not_false, if_true]
    intro a t hmem
    rcases List.mem_append.mp hmem with ho | hn
    · rcases hp a t ho with h1 | h2
      · exact Or.inl h1
      · exact Or.inr (List.mem_append_left _ h2)
    · rw [List.mem_singleton] at hn
      have ha : a = up.1 := congrArg Prod.fst hn
      rcases hcase with hg | hnone
      · refine Or.inr (List.mem_append_right _ ?_)
        rw [List.mem_singleton, ha, ← hg]
      · refine Or.inl ?_
        intro lr hlr
        rw [ha]
        exact hnone lr hlr

/-- One reconcile iteration keeps the plan sound for `Inv`, given a correct
view. -/
theorem reconcileStep_planOK (uhp : String → Option String) (s : DbState)
    (now serverNow : Int) (p : UpdatePlan) (v : SyncAddressData)
    (hv : ViewP s v) (hp : PlanOK s p) :
    PlanOK s (reconcileStep uhp s now serverNow p v) := by
  obtain ⟨hv1, hv2, hv3⟩ := hv
  unfold reconcileStep
  cases hin : v.inbound.1
  case none =>
    dsimp only
    intro a t hmem
    rcases hp a t hmem with h1 | h2
    · exact Or.inl h1
    · exact Or.inr (List.mem_append_left _ h2)
  case some upstream =>
    have hug : upstream.guid = v.guid := hv1 upstream hin
    cases hm : v.mirror
    case some mirror =>
      cases hl : v.localRow
      case some l =>
        dsimp only
        intro a t hmem
        exact hp a t hmem
      case none =>
        dsimp only
        intro a t hmem
        exact hp a t hmem
    case none =>
      cases hl : v.localRow
      case some l =>
        dsimp only
        refine planTwoWayMerge_planOK s p l.address (upstream, v.inbound.2) hp ?_
        refine Or.inl ?_
        rw [hv3 l hl, hug]
      case none =>
        dsimp only
        have hnol : ∀ r ∈ s.localRows, r.address.guid ≠ upstream.guid := by
          intro r hr
          rw [hug]
          exact (findLocal_eq_none.mp (hv2 hl)) r hr
        cases hd : findDupe uhp s upstream
        case some d =>
          dsimp only
          exact planTwoWayMerge_planOK s p d (upstream, v.inbound.2) hp (Or.inr hnol)
        case none =>
          dsimp only
          intro a t hmem
          rcases List.mem_append.mp hmem with ho | hn
          · rcases hp a t ho with h1 | h2
            · exact Or.inl h1
            · exact Or.inr h2
          · rw [List.mem_singleton] at hn
            have ha : a = upstream := congrArg Prod.fst hn
            refine Or.inl ?_
            intro lr hlr
            rw [ha]
            exact hnol lr hlr

/-- `reconcile` over correct views turns a sound plan into a sound plan. -/
theorem reconcile_planOK (uhp : String → Option String) (s : DbState)
    (now serverNow : Int) :
    ∀ (views : List SyncAddressData) (p : UpdatePlan) (sc : List Bool)
      (res : UpdatePlan × List Bool),
      reconcile uhp s now serverNow views p sc = .ok res →
      (∀ v ∈ views, ViewP s v) → PlanOK s p → PlanOK s res.1 := by
  intro views
  induction views with
  | nil =>
    intro p sc res h hv hp
    simp only [reconcile, Except.ok.injEq] at h
    rw [← h]
    exact hp
  | cons v rest ih =>
    intro p sc res h hv hp
    simp only [reconcile] at h
    cases hi : errIfInterrupted sc <;> rw [hi] at h
    case error e => cases h
    case ok sc1 =>
      dsimp only at h
      exact ih _ sc1 res h (fun v2 hv2 => hv v2 (List.mem_cons_of_mem _ hv2))
        (reconcileStep_planOK uhp s now serverNow p v (hv v (List.mem_cons_self _ _)) hp)

end Addresses

namespace Addresses

theorem deleteLocal_fold_ok :
    ∀ (cs : List (List String)) (acc : DbState × List Bool)
      (res : DbState × List Bool),
      cs.foldlM (fun (acc : DbState × List Bool) ch => do
        let s1 : DbState := { acc.1 with localRows := acc.1.localRows.filter (fun r =>
            !(ch.contains r.address.guid)) }
        let sc1 ← errIfInterrupted acc.2
        pure (s1, sc1)) acc = .ok res →
      res.1.mirrorRows = acc.1.mirrorRows ∧ res.1.meta = acc.1.meta ∧
      ∀ lr ∈ res.1.localRows, lr ∈ acc.1.localRows ∧
        ∀ ch ∈ cs, ch.contains lr.address.guid = false := by
  intro cs
  induction cs with
  | nil =>
    intro acc res h
    simp only [List.foldlM, pure, Except.pure, Except.ok.injEq] at h
    rw [← h]
    exact ⟨rfl, rfl, fun lr hlr => ⟨hlr, fun ch hch => absurd hch (List.not_mem_nil _)⟩⟩
  | cons ch t ih =>
    intro acc res h
    rw [List.foldlM_cons] at h
    simp only [bind, Except.bind] at h
    cases hi : errIfInterrupted acc.2 <;> rw [hi] at h
    · dsimp only at h
      cases h
    · dsimp only at h
      simp only [pure, Except.pure] at h
      obtain ⟨hm, hmeta, hmem⟩ := ih _ res h
      refine ⟨hm, hmeta, ?_⟩
      intro lr hlr
      obtain ⟨hlr1, hrest⟩ := hmem lr hlr
      have hf := List.mem_filter.mp hlr1
      refine ⟨hf.1, ?_⟩
      intro ch2 hch2
      rcases List.mem_cons.mp hch2 with hch2 | hch2
      · subst hch2
        have := hf.2
        simp only [Bool.not_eq_true'] at this
        exact this
      · exact hrest ch2 hch2

theorem deleteMirror_fold_ok :
    ∀ (cs : List (List String)) (st : DbState),
      ((cs.foldl (fun (st : DbState) ch => { st with mirrorRows := st.mirrorRows.filter (fun m => !(ch.contains m.address.guid)) }) st).localRows = st.localRows) ∧
      ((cs.foldl (fun (st : DbState) ch => { st with mirrorRows := st.mirrorRows.filter (fun m => !(ch.contains m.address.guid)) }) st).meta = st.meta) ∧
      ∀ m ∈ (cs.foldl (fun (st : DbState) ch => { st with mirrorRows := st.mirrorRows.filter (fun m => !(ch.contains m.address.guid)) }) st).mirrorRows,
        m ∈ st.mirrorRows := by
  intro cs
  induction cs with
  | nil => intro st; exact ⟨rfl, rfl, fun m hm => hm⟩
  | cons ch t ih =>
    intro st
    rw [List.foldl_cons]
    obtain ⟨h1, h2, h3⟩ := ih { st with mirrorRows := st.mirrorRows.filter (fun m => !(ch.contains m.address.guid)) }
    refine ⟨h1, h2, ?_⟩
    intro m hm
    exact (List.mem_filter.mp (h3 m hm)).1

/-- `perform_deletes` removes rows and nothing else: surviving Local rows are
original rows whose guid the plan does not delete, and surviving Mirror rows
are original rows. -/
theorem performDeletes_ok (p : UpdatePlan) (s : DbState) (sc : List Bool)
    (res : DbState × List Bool) (h : performDeletes p s sc = .ok res) :
    (∀ lr ∈ res.1.localRows, lr ∈ s.localRows ∧ lr.address.guid ∉ p.deleteLocal) ∧
    (∀ m ∈ res.1.mirrorRows, m ∈ s.mirrorRows) := by
  simp only [performDeletes] at h
  cases h1 : (chunksOf 999 p.deleteLocal).foldlM
      (fun (acc : DbState × List Bool) ch => do
        let s1 : DbState := { acc.1 with localRows := acc.1.localRows.filter (fun r =>
            !(ch.contains r.address.guid)) }
        let sc1 ← errIfInterrupted acc.2
        pure (s1, sc1)) (s, sc) <;> rw [h1] at h <;>
    simp only [bind, Except.bind, pure, Except.pure, Except.ok.injEq] at h
  case error e => cases h
  case ok r1 =>
    obtain ⟨hmir, hmeta, hloc⟩ := deleteLocal_fold_ok (chunksOf 999 p.deleteLocal)
      (s, sc) r1 h1
    obtain ⟨g1, g2, g3⟩ := deleteMirror_fold_ok (chunksOf 999 p.deleteMirror) r1.1
    constructor
    · intro lr hlr
      rw [← h] at hlr
      dsimp only at hlr
      rw [g1] at hlr
      obtain ⟨hmem, hchunks⟩ := hloc lr hlr
      refine ⟨hmem, ?_⟩
      intro hdel
      have hj : lr.address.guid ∈ (chunksOf 999 p.deleteLocal).flatten := by
        rw [chunksOf_flatten]
        exact hdel
      obtain ⟨ch, hch, hin⟩ := List.mem_flatten.mp hj
      have : ch.contains lr.address.guid = true := List.elem_eq_true_of_mem hin
      rw [hchunks ch hch] at this
      cases this
    · intro m hm
      rw [← h] at hm
      dsimp only at hm
      have := g3 m hm
      rw [hmir] at this
      exact this

end Addresses

namespace Addresses

theorem mirrorUpdates_fold_ok :
    ∀ (us : List (Address × Int)) (st : DbState) (sc : List Bool)
      (res : DbState × List Bool),
      us.foldlM (fun (acc : DbState × List Bool) u => do
        let s1 := applyMirrorUpdate u.1 u.2 acc.1
        let sc1 ← errIfInterrupted acc.2
        pure (s1, sc1)) (st, sc) = .ok res →
      res.1.localRows = st.localRows ∧ res.1.meta = st.meta ∧
      ∀ m ∈ res.1.mirrorRows, ∃ m0 ∈ st.mirrorRows,
        m.address.guid = m0.address.guid ∧ m.isOverridden = m0.isOverridden := by
  intro us
  induction us with
  | nil =>
    intro st sc res h
    simp only [List.foldlM, pure, Except.pure, Except.ok.injEq] at h
    rw [← h]
    exact ⟨rfl, rfl, fun m hm => ⟨m, hm, rfl, rfl⟩⟩
  | cons u t ih =>
    intro st sc res h
    rw [List.foldlM_cons] at h
    simp only [bind, Except.bind] at h
    cases hi : errIfInterrupted sc <;> rw [hi] at h
    · dsimp only at h
      cases h
    · dsimp only at h
      simp only [pure, Except.pure] at h
      obtain ⟨h1, h2, h3⟩ := ih _ _ res h
      refine ⟨h1, h2, ?_⟩
      intro m hm
      obtain ⟨m1, hm1, hg1, ho1⟩ := h3 m hm
      simp only [applyMirrorUpdate] at hm1
      obtain ⟨m0, hm0, hm0eq⟩ := List.mem_map.mp hm1
      refine ⟨m0, hm0, ?_, ?_⟩
      · rw [hg1, ← hm0eq]
        split <;> rfl
      · rw [ho1, ← hm0eq]
        split <;> rfl

theorem mirrorInserts_fold_ok :
    ∀ (ins : List (Address × Int × Bool)) (st : DbState) (sc : List Bool)
      (res : DbState × List Bool),
      ins.foldlM (fun (acc : DbState × List Bool) i => do
        let s1 := mirrorInsertOrIgnore i.1 i.2.1 i.2.2 acc.1
        let sc1 ← errIfInterrupted acc.2
        pure (s1, sc1)) (st, sc) = .ok res →
      res.1.localRows = st.localRows ∧ res.1.meta = st.meta ∧
      ∀ m ∈ res.1.mirrorRows, m ∈ st.mirrorRows ∨
        ∃ a t2 b, (a, t2, b) ∈ ins ∧
          m = { address := a, serverModified := t2, isOverridden := b } := by
  intro ins
  induction ins with
  | nil =>
    intro st sc res h
    simp only [List.foldlM, pure, Except.pure, Except.ok.injEq] at h
    rw [← h]
    exact ⟨rfl, rfl, fun m hm => Or.inl hm⟩
  | cons i t ih =>
    intro st sc res h
    rw [List.foldlM_cons] at h
    simp only [bind, Except.bind] at h
    cases hi : errIfInterrupted sc <;> rw [hi] at h
    · dsimp only at h
      cases h
    · dsimp only at h
      simp only [pure, Except.pure] at h
      obtain ⟨h1, h2, h3⟩ := ih _ _ res h
      have hl1 : (mirrorInsertOrIgnore i.1 i.2.1 i.2.2 st).localRows = st.localRows := by
        simp only [mirrorInsertOrIgnore]
        split <;> rfl
      have hme : (mirrorInsertOrIgnore i.1 i.2.1 i.2.2 st).meta = st.meta := by
        simp only [mirrorInsertOrIgnore]
        split <;> rfl
      refine ⟨h1.trans hl1, h2.trans hme, ?_⟩
      intro m hm
      rcases h3 m hm with hm3 | ⟨a, t2, b, hmem, hmeq⟩
      · simp only [mirrorInsertOrIgnore] at hm3
        by_cases hf : (findMirror st i.1.guid).isSome = true
        · rw [if_pos hf] at hm3
          exact Or.inl hm3
        · rw [if_neg hf] at hm3
          rcases List.mem_append.mp hm3 with hm4 | hm4
          · exact Or.inl hm4
          · rw [List.mem_singleton] at hm4
            exact Or.inr ⟨i.1, i.2.1, i.2.2, List.mem_cons_self _ _, hm4⟩
      · exact Or.inr ⟨a, t2, b, List.mem_cons_of_mem _ hmem, hmeq⟩

theorem localUpdates_fold_ok (now : Int) :
    ∀ (ls : List MirrorRow) (st : DbState) (sc : List Bool)
      (res : DbState × List Bool),
      ls.foldlM (fun (acc : DbState × List Bool) l => do
        let s1 := applyLocalUpdate now l acc.1
        let sc1 ← errIfInterrupted acc.2
        pure (s1, sc1)) (st, sc) = .ok res →
      res.1.mirrorRows = st.mirrorRows ∧ res.1.meta = st.meta ∧
      ∀ lr ∈ res.1.localRows, ∃ l0 ∈ st.localRows,
        lr.address.guid = l0.address.guid := by
  intro ls
  induction ls with
  | nil =>
    intro st sc res h
    simp only [List.foldlM, pure, Except.pure, Except.ok.injEq] at h
    rw [← h]
    exact ⟨rfl, rfl, fun lr hlr => ⟨lr, hlr, rfl⟩⟩
  | cons l t ih =>
    intro st sc res h
    rw [List.foldlM_cons] at h
    simp only [bind, Except.bind] at h
    cases hi : errIfInterrupted sc <;> rw [hi] at h
    · dsimp only at h
      cases h
    · dsimp only at h
      simp only [pure, Except.pure] at h
      obtain ⟨h1, h2, h3⟩ := ih _ _ res h
      refine ⟨h1, h2, ?_⟩
      intro lr hlr
      obtain ⟨l1, hl1, hg1⟩ := h3 lr hlr
      simp only [applyLocalUpdate] at hl1
      obtain ⟨l0, hl0, hl0eq⟩ := List.mem_map.mp hl1
      refine ⟨l0, hl0, ?_⟩
      rw [hg1, ← hl0eq]
      split <;> rfl

end Addresses

namespace Addresses

/-- Executing a sound plan on a state satisfying the overlay invariant yields
a state satisfying it. -/
theorem executePlanBody_inv (now : Int) (p : UpdatePlan) (sc : List Bool)
    (s : DbState) (res : DbState × List Bool)
    (h : executePlanBody now p sc s = .ok res) (hInv : Inv s)
    (hok : PlanOK s p) : Inv res.1 := by
  simp only [executePlanBody, bind, Except.bind] at h
  cases h1 : performDeletes p s sc <;> rw [h1] at h
  case error e => cases h
  case ok r1 =>
    dsimp only at h
    cases h2 : performMirrorUpdates p r1.1 r1.2 <;> rw [h2] at h
    case error e => cases h
    case ok r2 =>
      dsimp only at h
      cases h3 : performMirrorInserts p r2.1 r2.2 <;> rw [h3] at h
      case error e => cases h
      case ok r3 =>
        dsimp only at h
        simp only [performMirrorUpdates] at h2
        simp only [performMirrorInserts] at h3
        simp only [performLocalUpdates] at h
        obtain ⟨hd1, hd2⟩ := performDeletes_ok p s sc r1 h1
        obtain ⟨hu1, _, hu3⟩ := mirrorUpdates_fold_ok p.mirrorUpdates r1.1 r1.2 r2 h2
        obtain ⟨hi1, _, hi3⟩ := mirrorInserts_fold_ok p.mirrorInserts r2.1 r2.2 r3 h3
        obtain ⟨hl1, _, hl3⟩ := localUpdates_fold_ok now p.localUpdates r3.1 r3.2 res h
        intro lr hlr m hm hgeq
        obtain ⟨l3, hl3m, hl3g⟩ := hl3 lr hlr
        rw [hi1, hu1] at hl3m
        obtain ⟨hl3s, hl3nd⟩ := hd1 l3 hl3m
        rw [hl1] at hm
        rcases hi3 m hm with hm2 | ⟨a, t2, b, hins, hmeq⟩
        · obtain ⟨m1, hm1, hmg, hmo⟩ := hu3 m hm2
          have hm1s := hd2 m1 hm1
          rw [hmo]
          refine hInv l3 hl3s m1 hm1s ?_
          rw [← hmg, hgeq, hl3g]
        · cases hb : b
          case true =>
            rw [hmeq, hb]
          case false =>
            exfalso
            rw [hb] at hins
            rcases hok a t2 hins with hnol | hdel
            · refine hnol l3 hl3s ?_
              rw [← hl3g, ← hgeq, hmeq]
            · refine hl3nd ?_
              have hag : m.address.guid = a.guid := by rw [hmeq]
              rw [← hag, hgeq, hl3g] at hdel
              exact hdel

/-- With a garbage-free inbound batch, `do_apply_incoming` preserves the
overlay invariant: the plan it builds from correctly fetched views never
installs a not-overridden Mirror row beside a surviving Local row. -/
theorem inv_doApplyIncoming (uhp : String → Option String) (now : Int)
    (records : List (Payload × Int)) (serverNow : Int) (scope : List Bool)
    (s : DbState) (hng : ∀ pt ∈ records, pt.1.kind ≠ PayloadKind.garbage)
    (hInv : Inv s) :
    Inv (doApplyIncoming uhp now records serverNow scope s).2 := by
  unfold doApplyIncoming
  cases hf : fetchAddressData records scope s
  case error e => exact hInv
  case ok v3 =>
    obtain ⟨views, failed, sc1⟩ := v3
    dsimp only
    have hviews := fetch_views_ok records scope s views failed sc1 hng hf
    cases hr : reconcile uhp s now serverNow views {} sc1
    case error e => exact hInv
    case ok pr =>
      dsimp only
      have hok : PlanOK s pr.1 :=
        reconcile_planOK uhp s now serverNow views {} sc1 pr hr hviews
          (fun a t hmem => absurd hmem (List.not_mem_nil _))
      cases he : executePlanBody now pr.1 pr.2 s
      case error e => exact hInv
      case ok r =>
        dsimp only
        have hInv1 : Inv r.1 := executePlanBody_inv now pr.1 pr.2 s r he hInv hok
        cases ho : fetchOutgoing r.2 r.1
        case error e => exact hInv1
        case ok out => exact hInv1

end Addresses

namespace Addresses

/-- C2 (amended): the committed overlay invariant — no guid with both a Local
row and a not-overridden Mirror row — is preserved by every public mutating
operation except `add`: by `touch`, `update`, `delete`, `import_multiple`,
`wipe_local`, `wipe`, `reset`, `mark_as_synchronized`, and by
`apply_incoming` on batches in which every payload deserializes. It is not an
invariant of the full API: `add` can recreate a Local row over a
not-overridden Mirror row without marking it (`c2_counterexample`). -/
theorem c2_overlay_invariant_amended (s : DbState) (hInv : Inv s) :
    (∀ now g, Inv (touch now g s).2) ∧
    (∀ now a, Inv (update now a s).2) ∧
    (∀ now g, Inv (delete now g s).2) ∧
    (∀ now vg fr addrs, Inv (importMultiple now vg fr addrs s).2) ∧
    Inv (wipeLocal s).2 ∧
    (∀ now sc, Inv (wipe now sc s).2) ∧
    (∀ assoc, Inv (reset assoc s).2) ∧
    (∀ gs ts sc, Inv (markAsSynchronized gs ts sc s).2) ∧
    (∀ uhp now records serverNow scope,
      (∀ pt ∈ records, pt.1.kind ≠ PayloadKind.garbage) →
      Inv (doApplyIncoming uhp now records serverNow scope s).2) :=
  ⟨fun now g => inv_touch now g s hInv,
   fun now a => inv_update now a s hInv,
   fun now g => inv_delete now g s hInv,
   fun now vg fr addrs => inv_importMultiple now vg fr addrs s hInv,
   inv_wipeLocal s hInv,
   fun now sc => inv_wipe now sc s hInv,
   fun assoc => inv_reset assoc s hInv,
   fun gs ts sc => inv_markAsSynchronized gs ts sc s hInv,
   fun uhp now records serverNow scope hng =>
     inv_doApplyIncoming uhp now records serverNow scope s hng hInv⟩

/-- Witness: the amended C2 at a concrete invariant-satisfying state, with
the `apply_incoming` conjunct exercised on a concrete garbage-free batch. -/
theorem c2_overlay_invariant_amended_witness :
    Inv c2mir ∧
    Inv (doApplyIncoming (fun _ => none) 7 c2batch 100 [] c2mir).2 := by
  have hInv : Inv c2mir := by
    intro r hr
    exact absurd hr (List.not_mem_nil _)
  refine ⟨hInv, ?_⟩
  refine (c2_overlay_invariant_amended c2mir hInv).2.2.2.2.2.2.2.2
    (fun _ => none) 7 c2batch 100 [] ?_
  intro pt hpt
  rw [List.mem_singleton.mp hpt]
  decide

/-- C2 counterexample: `add`, `mark_as_synchronized` on the new guid, then
`add` again — three successful public operations from the empty database —
commit a state with a Local row beside a not-overridden Mirror row: the
second `add` checks only the Local table for the guid, and never marks the
Mirror row overridden. -/
theorem c2_counterexample :
    Inv (markAsSynchronized ["gc"] 10 [] (add 1 "z" c2a emptyDb).2).2 ∧
    (add 5 "z" c2a (markAsSynchronized ["gc"] 10 [] (add 1 "z" c2a emptyDb).2).2).1 =
      .ok (c2aAt 5) ∧
    ¬ Inv (add 5 "z" c2a
        (markAsSynchronized ["gc"] 10 [] (add 1 "z" c2a emptyDb).2).2).2 := by
  have hchunks : chunksOf 999 ["gc"] = [["gc"]] := by simp [chunksOf]
  have hmas : (markAsSynchronized ["gc"] 10 [] (add 1 "z" c2a emptyDb).2).2 =
      ⟨[], [⟨c2aAt 1, 10, false⟩], { emptyMeta with lastSync := some 10 }⟩ := by
    unfold markAsSynchronized masBody
    rw [hchunks]
    rfl
  refine ⟨?_, ?_, ?_⟩
  · rw [hmas]
    intro r hr
    exact absurd hr (List.not_mem_nil _)
  · rw [hmas]
    rfl
  · rw [hmas]
    intro hInv
    have := hInv ⟨c2aAt 5, some 5, false, .new⟩ (List.mem_singleton.mpr rfl)
      ⟨c2aAt 1, 10, false⟩ (List.mem_singleton.mpr rfl) rfl
    cases this

end Addresses
